import Mathlib

/-!
Shallow embedding of the `ki` synchronization engine (`ki/__init__.py`).

Pure functions of the source are translated into Lean functions; the
stateful reconciliation pipelines (`push`, `pull`, `write_collection`,
`_pull`) are translated into explicit state-passing functions over a
`KiState` record.  External collaborators (the SHA-256 digest, the Anki
database engine's id/name assignment, git's path-level diff index, the
Lark note parser) are passed in as function parameters, mirroring the
spec's "external interfaces" boundary.
-/

namespace Ki

/-! ### Identity resolution: `get_guid` (source lines 389-402) -/

/-- The `ALHPANUMERICS` constant (source line 189, including the source's typo). -/
def ALHPANUMERICS : String :=
  "abcdefghijklmnopqrstuvwxyzABCDEFGHIJKLMNOPQRSTUVWXYZ0123456789"

/-- The `SYMBOLS` constant (source line 190). -/
def SYMBOLS : String := "!#$%&()*+,-./:;<=>?@[]^_`\x7b|\x7d~"

/-- The `BASE91_TABLE = list(ALHPANUMERICS + SYMBOLS)` (source line 191). -/
def BASE91_TABLE : List Char := (ALHPANUMERICS ++ SYMBOLS).data

/--
The digit-emission loop of `get_guid` (source lines 398-401), emitting
base-91 digit *indices* least-significant first.  A fuel argument (the
number itself suffices) makes the definition structurally recursive and
kernel-computable.
-/
def lsbDigitsAux : Nat → Nat → List Nat
  | 0, _ => []
  | fuel + 1, x => if x = 0 then [] else x % 91 :: lsbDigitsAux fuel (x / 91)

/-- Base-91 digit indices of `x`, least-significant first (empty for `x = 0`). -/
def lsbDigits (x : Nat) : List Nat := lsbDigitsAux x x

/--
The integer `x` of `get_guid` (source line 395):
`reduce(lambda h, b: (h << 8) + b, m.digest()[:8], 0)` where `m` is the
SHA-256 of the `"__"`-join of the fields.  The digest (an external
cryptographic primitive) is a parameter `digest : String → List Nat`
modelling `bytes ↦ sha256(bytes)` on the UTF-8 encoding.
-/
def guidInt (digest : String → List Nat) (fields : List String) : Nat :=
  ((digest (String.intercalate "__" fields)).take 8).foldl (fun h b => h * 256 + b) 0

/-- The `get_guid` (source lines 389-402): base-91 rendering, most-significant
digit first, of the leading-8-byte big-endian integer of the digest. -/
def get_guid (digest : String → List Nat) (fields : List String) : String :=
  String.mk (((lsbDigits (guidInt digest fields)).map
    (fun d => BASE91_TABLE.getD d 'a')).reverse)

/-- The GUID selection of `parse_note` (source line 415):
`flatnote.guid if flatnote.guid != "" else get_guid(flatnote.fields)`. -/
def parseNoteGuid (digest : String → List Nat) (flatGuid : String)
    (fields : List String) : String :=
  if flatGuid ≠ "" then flatGuid else get_guid digest fields


/-! ### Diff engine: `mungediff` (source lines 310-339) -/

/-- The `GitChangeType` (from `ki.types`, values as used in the source). -/
inductive GitChangeType where
  | added
  | deleted
  | renamed
  | modified
  | typechanged
  deriving DecidableEq, Repr

/-- The `Delta` dataclass: `{status, path, relpath}` (from `ki.types`, as
constructed in `mungediff`).  `path` stands for the absolute snapshot file
(`files.a` / `files.b`), `relpath` for the repository-relative path. -/
structure DeltaE where
  status : GitChangeType
  path : String
  relpath : String
  deriving DecidableEq, Repr

/-- The `DeckNote` dataclass (from `ki.types`, fields as built by `parse_note`). -/
structure DeckNoteE where
  title : String
  guid : String
  deck : String
  model : String
  tags : List String
  fields : List (String × String)
  deriving DecidableEq, Repr

/-- One entry of the git path-level diff index (`git.Diff`): change type plus
possibly-absent old/new paths.  The version-control system is an external
collaborator; its diff entries are inputs here.  Absent paths are modelled
as `""` (Python's falsiness test `a if a else b` treats `None` and `""`
alike). -/
structure GitDiffEntry where
  change_type : GitChangeType
  a_path : String
  b_path : String
  deriving DecidableEq, Repr

/-- Filesystem/recognition environment of `mungediff`: outcomes of
`is_ignorable` (reserved names and the record-file recognition check) and
`F.isfile` on the two snapshot roots `a_root`/`b_root`. -/
structure DiffEnv where
  ignorableA : String → Bool
  ignorableB : String → Bool
  isfileA : String → Bool
  isfileB : String → Bool

/-- Diff-engine warnings (from `ki.types`). -/
inductive DWarning where
  | deletedFileNotFound (relpath : String)
  | diffTargetFileNotFound (relpath : String)
  deriving DecidableEq, Repr

/-- The `mungediff` (source lines 310-339): extract deltas and warnings from a
single git diff entry.  `parse` is the Lark-based note parser (an external
collaborator, passed as a callable exactly as in the source). -/
def mungediff (parse : DeltaE → DeckNoteE) (env : DiffEnv) (d : GitDiffEntry) :
    List (Sum DeltaE DWarning) :=
  let a := if d.a_path ≠ "" then d.a_path else d.b_path
  let b := if d.b_path ≠ "" then d.b_path else d.a_path
  if env.ignorableA a || env.ignorableB b then []
  else if d.change_type = GitChangeType.deleted then
    if ¬ env.isfileA a then [Sum.inr (DWarning.deletedFileNotFound a)]
    else [Sum.inl ⟨GitChangeType.deleted, a, a⟩]
  else if ¬ env.isfileB b then [Sum.inr (DWarning.diffTargetFileNotFound b)]
  else if d.change_type = GitChangeType.renamed then
    let aDelta : DeltaE := ⟨GitChangeType.deleted, a, a⟩
    let bDelta : DeltaE := ⟨GitChangeType.added, b, b⟩
    if (parse aDelta).guid ≠ (parse bDelta).guid then [Sum.inl aDelta, Sum.inl bDelta]
    else [Sum.inl ⟨d.change_type, b, b⟩]
  else [Sum.inl ⟨d.change_type, b, b⟩]

/-- The `diff2`'s combination step (source line 356):
`chain(*map(partial(mungediff, parse, a_root, b_root), diffidx))`. -/
def diffOutput (parse : DeltaE → DeckNoteE) (env : DiffEnv)
    (diffidx : List GitDiffEntry) : List (Sum DeltaE DWarning) :=
  (diffidx.map (mungediff parse env)).flatten

/-! ### Checkpoint ledger check and pipeline state -/

/-- Python's substring containment `needle in hay` on strings. -/
def containsSub (hay needle : String) : Bool :=
  (List.range (hay.data.length + 1)).any
    (fun i => needle.data.isPrefixOf (hay.data.drop i))

/-- The `hashes = list(filter(lambda l: l != "", hashes))` applied to the lines
of the hashes file (source lines 1731-1732 / 1843-1844). -/
def nonemptyLines (lines : List String) : List String :=
  lines.filter (fun l => l ≠ "")

/-- The up-to-date check shared by `pull` (line 1733) and `push` (line 1845):
the current collection hash is tested for membership *as a substring of the
ledger's last nonempty line* (`md5sum in hashes[-1]`). -/
def isUpToDate (lines : List String) (md5sum : String) : Bool :=
  containsSub ((nonemptyLines lines).getLastD "") md5sum

/-- A single ledger line as written by `append_md5sum` (source lines
620-624): `f"{md5sum}  {tag}"`. -/
def hashLine (md5sum tag : String) : String := md5sum ++ "  " ++ tag

/--
The persistent state a reconciliation pass can touch, over an abstract
collection-file content type `α`:

* `colFile` — the live collection database file;
* `hashes` — the lines of the `.ki/hashes` checkpoint ledger file on disk;
* `committedHashes` — the ledger file's content as committed at `HEAD`
  (what `git checkout HEAD -- .ki/hashes` restores, `_pull` line 1796);
* `lcaCol` — `.ki/backups/lca.anki2` (`overwrite_lca_col_file`);
* `backups` — content hashes keyed by the backup files in `.ki/backups`;
* `tag` — the commit the `LCA` checkpoint tag points at.
-/
structure KiState (α : Type) where
  colFile : α
  hashes : List String
  committedHashes : List String
  lcaCol : α
  backups : List String
  tag : Nat
  deriving DecidableEq, Repr

/-- Outcome of a `push` pass: `PushResult.UP_TO_DATE`,
`PushResult.NONTRIVIAL`, the raised `UpdatesRejectedError`, or a fatal
error `ε` raised while mutating the disposable collection copy. -/
inductive PushOutcome (ε : Type) where
  | upToDate
  | nontrivial
  | updatesRejected
  | applyFailed (e : ε)
  deriving DecidableEq, Repr

/--
The `push` pipeline (source lines 1813-1873) followed by
`write_collection` (lines 1876-1959), as a state transformer.

External collaborators appear as parameters: `md5` is `F.md5`; `parse`,
`env`, `diffidx` feed the diff engine (`diff2`); `applyChanges` is the
mutation of the disposable collection copy (model addition via
`add_model`, note deletion, `push_note` — a fatal error there is the
`Except.error` case); `addMedia` is the media reconciliation applied to
the live collection after the copy-back; `tagGen` is the commit the
re-created `LCA` tag points at; `colName` is `kirepo.col_file.name`.

Step order mirrors the source: up-to-date check, diff, no-op check, copy
mutation, backup, copy-back, media, ledger append, LCA overwrite, tag
advance.
-/
def pushModel {α ε : Type} (md5 : α → String) (colName : String) (tagGen : Nat)
    (parse : DeltaE → DeckNoteE) (env : DiffEnv) (diffidx : List GitDiffEntry)
    (applyChanges : α → Except ε α) (addMedia : α → α)
    (s : KiState α) : KiState α × PushOutcome ε :=
  let md5sum := md5 s.colFile
  if ¬ isUpToDate s.hashes md5sum then (s, PushOutcome.updatesRejected)
  else
    let out := diffOutput parse env diffidx
    let deltas := out.filterMap
      (fun x => match x with | Sum.inl d => some d | Sum.inr _ => none)
    if deltas.isEmpty then (s, PushOutcome.upToDate)
    else
      match applyChanges s.colFile with
      | Except.error e => (s, PushOutcome.applyFailed e)
      | Except.ok newCol =>
        let backups' :=
          if s.backups.contains md5sum then s.backups else s.backups ++ [md5sum]
        let col₂ := addMedia newCol
        ({ colFile := col₂,
           hashes := s.hashes ++ [hashLine (md5 col₂) colName],
           committedHashes := s.committedHashes,
           lcaCol := col₂,
           backups := backups',
           tag := tagGen }, PushOutcome.nontrivial)

/-- Outcome of a `pull` pass: the up-to-date no-op, success, or the
`CollectionChecksumError` concurrency error. -/
inductive PullOutcome where
  | upToDate
  | ok
  | checksumError
  deriving DecidableEq, Repr

/--
The `pull` pipeline (source lines 1720-1738) followed by `_pull` (lines
1741-1805), as a state transformer.  `colAtCheck` is the collection file
content observed by the re-read `F.md5(kirepo.col_file)` at line 1801
(under concurrent modification it may differ from `s.colFile`).

Step order mirrors the source: up-to-date check; branch at the `LCA` tag,
apply the structural change list, merge (working-tree edits outside this
state); restore the ledger file from `HEAD` (line 1796); append the
current hash (line 1800); verify the checksum (line 1801, raising
`CollectionChecksumError` *after* the append); commit the ledger (lines
1804-1805).
-/
def pullModel {α : Type} (md5 : α → String) (colName : String)
    (colAtCheck : α) (s : KiState α) : KiState α × PullOutcome :=
  let md5sum := md5 s.colFile
  if isUpToDate s.hashes md5sum then (s, PullOutcome.upToDate)
  else
    let hashes₂ := s.committedHashes ++ [hashLine md5sum colName]
    if md5 colAtCheck ≠ md5sum then
      ({ s with hashes := hashes₂ }, PullOutcome.checksumError)
    else
      ({ s with hashes := hashes₂, committedHashes := hashes₂ }, PullOutcome.ok)

/-! ### Schema (notetype) addition: `add_model` (source lines 1324-1358) -/

/-- The `Notetype` dataclass (from `ki.types`): numeric id, name, and the rest
of the definition (field/template content), abstracted into `content`. -/
structure NotetypeE where
  id : Nat
  name : String
  content : Nat
  deriving DecidableEq, Repr

/-- Modelled from the spec: `notetype_json` lives in `ki/types.py`, which is
not under `src/`; per §3 a Schema carries "a content hash usable for
equality comparison independent of id", so two notetypes serialize equally
iff their names and content agree, ignoring `id`. -/
def notetypeJson (nt : NotetypeE) : String × Nat := (nt.name, nt.content)

/-- The `NotetypeCollisionWarning` (from `ki.types`), carrying the colliding
model and the existing model. -/
inductive ModelWarning where
  | notetypeCollision (model existing : NotetypeE)
  deriving DecidableEq, Repr

/-- Modelled from the spec: the database engine's "add a schema" operation
(§6) invoked by `add_model` as `col.models.add_dict(nt_copy)` with
`nt_copy["id"] = 0`.  The engine stores a new schema entry under a freshly
assigned id (name-uniquification on collision is the engine's own policy
and is irrelevant to whether an entry is created). -/
def addDict (freshId : Nat) (col : List NotetypeE) (nt : NotetypeE) : List NotetypeE :=
  col ++ [{ nt with id := freshId }]

/-- The `col.models.id_for_name(name)` over the model store. -/
def idForName (col : List NotetypeE) (name : String) : Option Nat :=
  (col.find? (fun nt => nt.name = name)).map (fun nt => nt.id)

/-- The `col.models.get(mid)` over the model store. -/
def getModel (col : List NotetypeE) (mid : Nat) : Option NotetypeE :=
  col.find? (fun nt => nt.id = mid)

/-- The `add_model` (source lines 1324-1358): returns the updated model store
and the warnings emitted.  If a same-named model exists with identical
serialized content, the add is skipped; if a same-named model exists with
differing content, a `NotetypeCollisionWarning` is emitted and the code
then *falls through to `add_dict`*, creating a new entry. -/
def add_model (freshId : Nat) (col : List NotetypeE) (model : NotetypeE) :
    List NotetypeE × List ModelWarning :=
  match idForName col model.name with
  | some mid =>
    match getModel col mid with
    | some existing =>
      if notetypeJson model = notetypeJson existing then (col, [])
      else (addDict freshId col model,
            [ModelWarning.notetypeCollision model existing])
    | none => (addDict freshId col model, [])
  | none => (addDict freshId col model, [])

/-! ### Media synchronizer (source lines 1361-1371, 1528-1539, 1933-1947) -/

/-- The `MediaBytes` dataclass: file (name and working-tree bytes), old bytes
from the collection's store, new bytes from the working tree. -/
structure MediaBytesE where
  name : String
  old : List Nat
  new : List Nat
  deriving DecidableEq, Repr

/-- The `RenamedMediaFileWarning(old_name, new_name)` (from `ki.types`). -/
inductive MediaWarning where
  | renamedMediaFile (oldName newName : String)
  deriving DecidableEq, Repr

/-- The `mediadata` (source lines 1362-1371): the stored bytes of a named
attachment, `b""` when the store has no such file (or reading fails). -/
def mediadata (store : List (String × List Nat)) (fname : String) : List Nat :=
  match store.find? (fun kv => kv.1 = fname) with
  | some kv => kv.2
  | none => []

/-- The `mediabytes` (source lines 1529-1533): pair the stored (old) and
working-tree (new) bytes of a file. -/
def mediabytes (store : List (String × List Nat)) (file : String × List Nat) :
    MediaBytesE :=
  { name := file.1, old := mediadata store file.1, new := file.2 }

/--
The media-reconciliation phase of `write_collection` (source lines
1933-1947), which lazily pipes each working-tree media file through
`mediabytes`, the skip filter `m.old == b"" or m.old != m.new`, and
`addmedia` (`col.media.add_file`, which may rename on content collision —
`addFile` is the engine's store-update-and-name-assignment, an external
collaborator).  Because the pipeline is lazy, each file's old bytes are
read from the store state left by the previous file's add.  Returns the
final store, the `(requested name, returned name)` pairs of the added
files, and the rename warnings.
-/
def mediaPhase (addFile : List (String × List Nat) → String → List Nat →
      List (String × List Nat) × String)
    (store : List (String × List Nat)) (files : List (String × List Nat)) :
    List (String × List Nat) × List (String × String) × List MediaWarning :=
  match files with
  | [] => (store, [], [])
  | f :: fs =>
    let m := mediabytes store f
    if m.old = [] ∨ m.old ≠ m.new then
      let (store', newName) := addFile store f.1 f.2
      let (storeF, added, warns) := mediaPhase addFile store' fs
      (storeF, (f.1, newName) :: added,
       (if f.1 ≠ newName then [MediaWarning.renamedMediaFile f.1 newName] else [])
         ++ warns)
    else
      mediaPhase addFile store fs

/-! ### Deck tree and card-file map: `postorder` (source lines 946-955),
`write_deck`/`write_card` (source lines 1044-1084) -/

/-- A card row as `write_card` consumes it: card id and owning note id
(the deck is implicit in which `Deck`'s card list it appears in). -/
structure CardE where
  cid : Nat
  nid : Nat
  deriving DecidableEq, Repr

/-- The `Deck` node (from `ki.types`): numeric deck id, full `::`-joined name,
the cards *directly* in this deck (`DeckManager.cids(did, children=False)`),
and child decks. -/
inductive DeckT where
  | node (did : Nat) (fullname : String) (cards : List CardE) (children : List DeckT)
  deriving Repr

def DeckT.did : DeckT → Nat
  | .node d _ _ _ => d

def DeckT.fullname : DeckT → String
  | .node _ f _ _ => f

def DeckT.cards : DeckT → List CardE
  | .node _ _ cs _ => cs

mutual
/-- The `postorder` (source lines 946-955) on a `Deck` node: all descendants,
then the node itself. -/
def postorderD : DeckT → List DeckT
  | .node did fn cards children => postorderL children ++ [.node did fn cards children]

/-- The `reduce(lambda xs, x: xs + postorder(x), node.children, [])`
accumulation over a child list. -/
def postorderL : List DeckT → List DeckT
  | [] => []
  | t :: ts => postorderD t ++ postorderL ts
end

/-- The `postorder` on the `Root` node: descendants only (source lines 953-954). -/
def postorderRoot (children : List DeckT) : List DeckT := postorderL children

/-- Modelled from the spec: `M.MEDIA` (the attachments directory name) is
defined in `ki/maybes.py`, which is not under `src/`; only its use as a
reserved name matters here. -/
def MEDIA : String := "_media"

/-- The `CardFile` dataclass (from `ki.types`): the card, the canonical payload
file it displays (identified by the deck it was written in and its note
id), and the optional link.  `link = some tgt` records that a link to the
canonical file `tgt` was materialized for this card (`get_link`, source
lines 1103-1108; the link creation itself is `M.winlink` in `ki/maybes.py`,
modelled from the spec's card-file-map description in §3/§4.7). -/
structure CardFileL where
  cid : Nat
  file : Nat × Nat
  link : Option (Nat × Nat)
  deriving DecidableEq, Repr

/-- Filesystem events of the card-file write phase: a real payload file
written for note `nid` in deck `did`, or a link in deck `did` pointing at
the canonical file `tgt`. -/
inductive WEvent where
  | write (nid did : Nat)
  | link (nid did : Nat) (tgt : Nat × Nat)
  deriving DecidableEq, Repr

/-- The `Dict[NoteId, CardFileMap]` with `CardFileMap = Dict[DeckId,
List[CardFile]]`, as insertion-ordered association lists (Python dicts
preserve insertion order; `d | {k: v}` updates `k` in place or appends). -/
def Notefiles : Type := List (Nat × List (Nat × List CardFileL))

/-- Lookup in an insertion-ordered association list (`dict.get`). -/
def alookup {β : Type} : List (Nat × β) → Nat → Option β
  | [], _ => none
  | kv :: rest, k => if kv.1 = k then some kv.2 else alookup rest k

/-- Update in an insertion-ordered association list (`d | {k: v}`): an
existing key keeps its position, a new key is appended at the end —
Python dict-merge semantics. -/
def aset {β : Type} : List (Nat × β) → Nat → β → List (Nat × β)
  | [], k, v => [(k, v)]
  | kv :: rest, k, v =>
    if kv.1 = k then (k, v) :: rest else kv :: aset rest k v

/--
The `write_card` function (source lines 1060-1084) as a fold step over `(notefiles,
events)`.  Branches exactly as the source:
* no entry for the note at all — write the payload file here;
* an entry for this note *in this deck* — reuse its first card-file;
* an entry for this note only in other decks — link to the first entry's
  first card-file (`list(cardfile_map.values())[0][0]`).
-/
def write_card (deckDid : Nat) (st : Notefiles × List WEvent) (card : CardE) :
    Notefiles × List WEvent :=
  let nf := st.1
  let evs := st.2
  let cardfileMap := (alookup nf card.nid).getD []
  let cardfiles := (alookup cardfileMap deckDid).getD []
  if cardfileMap.isEmpty then
    let file := (deckDid, card.nid)
    let cf : CardFileL := ⟨card.cid, file, none⟩
    (aset nf card.nid (aset cardfileMap deckDid (cardfiles ++ [cf])),
     evs ++ [WEvent.write card.nid deckDid])
  else if ¬ cardfiles.isEmpty then
    let c0 := cardfiles.headD ⟨0, (0, 0), none⟩
    let cf : CardFileL := ⟨card.cid, c0.file, c0.link⟩
    (aset nf card.nid (aset cardfileMap deckDid (cardfiles ++ [cf])), evs)
  else
    let existing := ((cardfileMap.headD (0, [])).2.headD ⟨0, (0, 0), none⟩)
    let cf : CardFileL := ⟨card.cid, existing.file, some existing.file⟩
    (aset nf card.nid (aset cardfileMap deckDid (cardfiles ++ [cf])),
     evs ++ [WEvent.link card.nid deckDid existing.file])

/-- Default card-file value (used only for `headD` defaults under guards
that ensure nonemptiness). -/
def dummyCF : CardFileL := ⟨0, (0, 0), none⟩

/-- Classifier: a payload-write event for note `nid`. -/
def isWriteOf (nid : Nat) : WEvent → Bool
  | WEvent.write n _ => n = nid
  | _ => false

/-- Classifier: a link event for note `nid`. -/
def isLinkOf (nid : Nat) : WEvent → Bool
  | WEvent.link n _ _ => n = nid
  | _ => false

/-- A deck owns (a card of) note `nid` when one of its direct cards
belongs to that note. -/
def ownsNid (nid : Nat) (d : DeckT) : Bool :=
  d.cards.any (fun c => c.nid = nid)

/-- Shape of a note's card-file map after processing some decks: its keys
are exactly `ks` (the owning decks in processing order), every per-deck
card-file list is nonempty, and the first entry's first card-file carries
the canonical payload file `c`. -/
def canonShape (ks : List Nat) (c : Nat × Nat)
    (m : List (Nat × List CardFileL)) : Prop :=
  m.map Prod.fst = ks
    ∧ (∀ e ∈ m, e.2 ≠ [])
    ∧ ((m.headD (0, [])).2.headD dummyCF).file = c

/-- Default deck value (used only for `headD` defaults under guards that
ensure nonemptiness). -/
def dummyDeck : DeckT := DeckT.node 0 "" [] []

/-- The `write_deck` (source lines 1044-1057): fold `write_card` over the cards
directly in one deck. -/
def write_deck (st : Notefiles × List WEvent) (deck : DeckT) :
    Notefiles × List WEvent :=
  deck.cards.foldl (write_card deck.did) st

/-- The card-writing phase of `write_decks` (source lines 1022-1033): fold
`write_deck` over the post-order deck list, decks whose full name contains
the media reserved name filtered out. -/
def writeDecksCards (children : List DeckT) : Notefiles × List WEvent :=
  ((postorderRoot children).filter
    (fun d => ¬ containsSub d.fullname MEDIA)).foldl write_deck ([], [])

/-! ### Note update: `update_note` (source lines 455-519),
`validate_decknote_fields` (source lines 522-537) -/

/-- A note row as `update_note` mutates it: id, tags, deck of its cards,
notetype id, and the ordered field-name→text map. -/
structure NoteS where
  id : Nat
  tags : List String
  did : Nat
  mid : Nat
  fields : List (String × String)
  deriving DecidableEq, Repr

/-- Notetype as `update_note`/`validate_decknote_fields` consume it:
id, name, and ordered field names. -/
structure NotetypeS where
  id : Nat
  name : String
  flds : List String
  deriving DecidableEq, Repr

/-- Warnings of the note-update path (from `ki.types`). -/
inductive UWarning where
  | wrongFieldCount (names : List String)
  | inconsistentFieldNames (x y : String)
  | noteFieldValidation (key : String)
  | emptyNote
  | duplicateNote
  | unhealthyNote (health : Nat)
  deriving DecidableEq, Repr

/-- The `NotetypeMismatchError` (source line 479). -/
inductive UErr where
  | notetypeMismatch
  deriving DecidableEq, Repr

/-- The `validate_decknote_fields` (source lines 522-537): a
`WrongFieldCountWarning` on count mismatch, then an
`InconsistentFieldNamesWarning` per position where the zipped names differ. -/
def validate_decknote_fields (nt : NotetypeS) (dn : DeckNoteE) : List UWarning :=
  (if dn.fields.length ≠ nt.flds.length then [UWarning.wrongFieldCount nt.flds] else [])
    ++ ((nt.flds.zip (dn.fields.map (fun kv => kv.1))).filterMap
      (fun xy => if xy.1 ≠ xy.2 then
        some (UWarning.inconsistentFieldNames xy.1 xy.2) else none))

/-- The `check_fields_health` (source lines 377-386), over the health status
code returned by the database engine's field-health check. -/
def check_fields_health (health : Nat) : List UWarning :=
  if health = 1 then [UWarning.emptyNote]
  else if health = 2 then [UWarning.duplicateNote]
  else if health ≠ 0 then [UWarning.unhealthyNote health]
  else []

/-- The `note[key] = plain_to_html(field)` on the field map. -/
def setField (n : NoteS) (key val : String) : NoteS :=
  { n with fields := n.fields.map (fun kv => if kv.1 = key then (key, val) else kv) }

/--
The `update_note` function (source lines 455-519) as a state transformer on the note.
External pieces are parameters: `plainToHtml` is `plain_to_html` (source
lines 427-443, its string-rewriting details irrelevant here); `deckIdOf`
is `col.decks.id(name, create=True)`; `cids` are the note's card ids;
`health` is the engine's `note.fields_check()` on the resulting note.

Returns the updated note, the warnings, and whether the note was removed
by the health check.  Step order mirrors the source: notetype-name check,
tags flush, deck set (only when the note has cards), notetype change
(which *clears all fields* — source line 494 comment), field validation
(early return on any warning), field writes, health check.
-/
def update_note (plainToHtml : String → String) (deckIdOf : String → Nat)
    (cids : List Nat) (health : NoteS → Nat) (note : NoteS) (dn : DeckNoteE)
    (oldNt newNt : NotetypeS) : Except UErr (NoteS × List UWarning × Bool) :=
  if dn.model ≠ newNt.name then Except.error UErr.notetypeMismatch
  else
    let n1 := { note with tags := dn.tags }
    let n2 := if ¬ cids.isEmpty then { n1 with did := deckIdOf dn.deck } else n1
    let n3 := if oldNt.id ≠ newNt.id then
        { n2 with mid := newNt.id, fields := newNt.flds.map (fun f => (f, "")) }
      else n2
    let ws := validate_decknote_fields newNt dn
    if ¬ ws.isEmpty then Except.ok (n3, ws, false)
    else
      let missing := (dn.fields.filter
        (fun kv => ¬ n3.fields.any (fun g => g.1 = kv.1))).map
        (fun kv => UWarning.noteFieldValidation kv.1)
      let present := dn.fields.filter (fun kv => n3.fields.any (fun g => g.1 = kv.1))
      let n4 := present.foldl (fun n kv => setField n kv.1 (plainToHtml kv.2)) n3
      let fwarns := check_fields_health (health n4)
      Except.ok (n4, missing ++ fwarns, ¬ fwarns.isEmpty)

/-! ## Theorems -/

/-! ### Digit-loop lemmas -/

/-! Digit-loop lemmas. -/

theorem lsbDigitsAux_fuel (f₁ : Nat) : ∀ f₂ x, x ≤ f₁ → x ≤ f₂ →
    lsbDigitsAux f₁ x = lsbDigitsAux f₂ x := by
  induction f₁ with
  | zero =>
    intro f₂ x h1 _
    have : x = 0 := by omega
    subst this
    cases f₂ <;> simp [lsbDigitsAux]
  | succ n ih =>
    intro f₂ x h1 h2
    cases f₂ with
    | zero =>
      have : x = 0 := by omega
      subst this
      simp [lsbDigitsAux]
    | succ m =>
      cases x with
      | zero => simp [lsbDigitsAux]
      | succ k =>
        have hlt : (k + 1) / 91 < k + 1 := Nat.div_lt_self (Nat.succ_pos k) (by omega)
        simp only [lsbDigitsAux, Nat.succ_ne_zero, if_false]
        rw [ih m ((k + 1) / 91) (by omega) (by omega)]

theorem lsbDigits_eq (x : Nat) :
    lsbDigits x = if x = 0 then [] else x % 91 :: lsbDigits (x / 91) := by
  cases x with
  | zero => rfl
  | succ m =>
    have hlt : (m + 1) / 91 < m + 1 := Nat.div_lt_self (Nat.succ_pos m) (by omega)
    show lsbDigitsAux (m + 1) (m + 1) = _
    simp only [lsbDigitsAux, Nat.succ_ne_zero, if_false]
    rw [lsbDigitsAux_fuel m ((m + 1) / 91) ((m + 1) / 91) (by omega) (le_refl _)]
    rfl

theorem lsbDigits_lt (x : Nat) : ∀ d ∈ lsbDigits x, d < 91 := by
  induction x using Nat.strong_induction_on with
  | _ x ih =>
    rw [lsbDigits_eq]
    cases x with
    | zero => simp
    | succ m =>
      simp only [Nat.succ_ne_zero, if_false, List.mem_cons]
      rintro d (rfl | hd)
      · exact Nat.mod_lt _ (by omega)
      · exact ih ((m + 1) / 91) (Nat.div_lt_self (Nat.succ_pos m) (by omega)) d hd

/-- Reading the emitted digits back most-significant first recovers `x`. -/
theorem lsbDigits_decode (x : Nat) :
    ((lsbDigits x).reverse).foldl (fun a d => a * 91 + d) 0 = x := by
  suffices h : ∀ x a : Nat, ((lsbDigits x).reverse).foldl (fun a d => a * 91 + d) a
      = a * 91 ^ (lsbDigits x).length + x by
    have := h x 0
    simpa using this
  intro x
  induction x using Nat.strong_induction_on with
  | _ x ih =>
    intro a
    rw [lsbDigits_eq]
    cases x with
    | zero => simp
    | succ m =>
      simp only [Nat.succ_ne_zero, if_false, List.reverse_cons, List.foldl_append,
        List.foldl_cons, List.foldl_nil, List.length_cons]
      rw [ih ((m + 1) / 91) (Nat.div_lt_self (Nat.succ_pos m) (by omega)) a]
      have hdm : 91 * ((m + 1) / 91) + (m + 1) % 91 = m + 1 := Nat.div_add_mod (m + 1) 91
      ring_nf
      omega

/-- The loop runs zero times exactly on `x = 0`. -/
theorem lsbDigits_nil_iff (x : Nat) : lsbDigits x = [] ↔ x = 0 := by
  rw [lsbDigits_eq]
  cases x with
  | zero => simp
  | succ m => simp

/-- The most-significant digit (the last one emitted) is nonzero. -/
theorem lsbDigits_getLast?_ne_zero (x : Nat) (hx : 0 < x) :
    (lsbDigits x).getLast? ≠ some 0 := by
  induction x using Nat.strong_induction_on with
  | _ x ih =>
    rw [lsbDigits_eq]
    cases x with
    | zero => omega
    | succ m =>
      simp only [Nat.succ_ne_zero, if_false]
      cases hrest : lsbDigits ((m + 1) / 91) with
      | nil =>
        have hq : (m + 1) / 91 = 0 := (lsbDigits_nil_iff _).mp hrest
        have h91 : m + 1 < 91 := by
          by_contra h'
          have : 1 ≤ (m + 1) / 91 := (Nat.one_le_div_iff (by omega)).mpr (by omega)
          omega
        rw [List.getLast?_singleton]
        intro hcontra
        have : (m + 1) % 91 = 0 := Option.some.inj hcontra
        omega
      | cons b l =>
        have hq : (m + 1) / 91 ≠ 0 := by
          intro h0
          rw [h0] at hrest
          exact absurd hrest.symm (by simp [lsbDigits, lsbDigitsAux])
        have hlt : (m + 1) / 91 < m + 1 := Nat.div_lt_self (Nat.succ_pos m) (by omega)
        rw [List.getLast?_cons_cons, ← hrest]
        exact ih ((m + 1) / 91) hlt (Nat.pos_of_ne_zero hq)

/-! ### Checkpoint staleness and no-op passes (C1, C2, C3) -/

/--
Claim C1: A Push pass, before performing any mutation, verifies the
database file's current md5 against the checkpoint ledger via the
up-to-date check (`md5sum in hashes[-1]`, i.e. membership in the ledger's
last nonempty line); when the check fails, Push stops with the distinct
`UpdatesRejectedError` outcome and the database file, hashes ledger,
backups and checkpoint tag are left exactly as they were.
-/
theorem push_stale_updates_rejected {α ε : Type} (md5 : α → String)
    (colName : String) (tagGen : Nat) (parse : DeltaE → DeckNoteE) (env : DiffEnv)
    (diffidx : List GitDiffEntry) (applyChanges : α → Except ε α) (addMedia : α → α)
    (s : KiState α) (h : isUpToDate s.hashes (md5 s.colFile) = false) :
    pushModel md5 colName tagGen parse env diffidx applyChanges addMedia s
      = (s, PushOutcome.updatesRejected) := by
  unfold pushModel
  simp [h]

/-- Witness for C1 at a concrete stale state: the ledger's last line holds
`cafe` while the live collection hashes to `beef`. -/
theorem push_stale_updates_rejected_witness :
    @pushModel String Unit id "collection.anki2" 3
      (fun _ => ⟨"", "", "", "", [], []⟩)
      ⟨fun _ => false, fun _ => false, fun _ => true, fun _ => true⟩
      [] Except.ok id
      ⟨"beef", ["cafe  collection.anki2"], ["cafe  collection.anki2"], "beef", [], 0⟩
      = (⟨"beef", ["cafe  collection.anki2"], ["cafe  collection.anki2"],
          "beef", [], 0⟩, PushOutcome.updatesRejected) :=
  push_stale_updates_rejected id "collection.anki2" 3
    (fun _ => ⟨"", "", "", "", [], []⟩)
    ⟨fun _ => false, fun _ => false, fun _ => true, fun _ => true⟩
    [] Except.ok id
    ⟨"beef", ["cafe  collection.anki2"], ["cafe  collection.anki2"], "beef", [], 0⟩
    (by decide)

/--
Claim C2: With the checkpoint up to date and no path-level diff between the
two snapshot commits (no intervening edits, e.g. immediately after Clone
or a successful Push/Pull), Push finds no Deltas, reports up to date and
returns `UP_TO_DATE` leaving the state — collection file, ledger, backups
(no backup written) and tag — unchanged; Pull, when the collection's
current hash is in the ledger's last entry, reports up to date and stops
without modifying anything.
-/
theorem push_pull_noop {α ε : Type} (md5 : α → String) (colName : String)
    (tagGen : Nat) (parse : DeltaE → DeckNoteE) (env : DiffEnv)
    (diffidx : List GitDiffEntry) (applyChanges : α → Except ε α) (addMedia : α → α)
    (colAtCheck : α) (s : KiState α)
    (hup : isUpToDate s.hashes (md5 s.colFile) = true)
    (hidx : diffidx = []) :
    pushModel md5 colName tagGen parse env diffidx applyChanges addMedia s
        = (s, PushOutcome.upToDate)
    ∧ pullModel md5 colName colAtCheck s = (s, PullOutcome.upToDate) := by
  constructor
  · subst hidx
    unfold pushModel
    simp [hup, diffOutput]
  · unfold pullModel
    simp [hup]

/-- Witness for C2 at a concrete clean state: ledger last line holds the
collection's current hash `cafe` and the diff index is empty. -/
theorem push_pull_noop_witness :
    @pushModel String Unit id "collection.anki2" 3
      (fun _ => ⟨"", "", "", "", [], []⟩)
      ⟨fun _ => false, fun _ => false, fun _ => true, fun _ => true⟩
      [] Except.ok id
      ⟨"cafe", ["cafe  collection.anki2"], ["cafe  collection.anki2"], "cafe", [], 0⟩
      = (⟨"cafe", ["cafe  collection.anki2"], ["cafe  collection.anki2"],
          "cafe", [], 0⟩, PushOutcome.upToDate)
    ∧ @pullModel String id "collection.anki2" "cafe"
      ⟨"cafe", ["cafe  collection.anki2"], ["cafe  collection.anki2"], "cafe", [], 0⟩
      = (⟨"cafe", ["cafe  collection.anki2"], ["cafe  collection.anki2"],
          "cafe", [], 0⟩, PullOutcome.upToDate) :=
  push_pull_noop id "collection.anki2" 3
    (fun _ => ⟨"", "", "", "", [], []⟩)
    ⟨fun _ => false, fun _ => false, fun _ => true, fun _ => true⟩
    [] Except.ok id "cafe"
    ⟨"cafe", ["cafe  collection.anki2"], ["cafe  collection.anki2"], "cafe", [], 0⟩
    (by decide) rfl

/--
Claim C3 counterexample: As stated, the claim is false at this concrete
input: Pull's mid-operation collection-checksum concurrency error does
*not* leave the hashes ledger untouched.  `_pull` appends the captured
hash to the ledger file (line 1800) *before* re-checking the collection's
checksum (line 1801), so when `CollectionChecksumError` is raised the
ledger file has gained a line.
-/
theorem pull_checksum_error_touches_ledger :
    @pullModel String id "collection.anki2" "B"
        ⟨"A", ["x  collection.anki2"], ["x  collection.anki2"], "A", [], 0⟩
      = (⟨"A", ["x  collection.anki2", "A  collection.anki2"],
          ["x  collection.anki2"], "A", [], 0⟩, PullOutcome.checksumError)
    ∧ (["x  collection.anki2", "A  collection.anki2"] : List String)
        ≠ ["x  collection.anki2"] := by
  constructor
  · decide
  · decide

/--
Claim C3 (amended): Fatal errors leave the live database and checkpoint
tag untouched, with one qualification on Pull's ledger file: in Push,
every record/schema mutation prior to the copy-back step is applied only
to a disposable copy of the database, so a fatal error there returns the
state exactly unchanged; in Pull, the mid-operation collection-checksum
concurrency error leaves the database file, the committed ledger, the
backups and the tag unchanged, but the ledger *file* has the captured
hash line appended (the append precedes the check), and that append is
never committed.
-/
theorem pass_failure_state_isolation {α ε : Type} (md5 : α → String)
    (colName : String) (tagGen : Nat) (parse : DeltaE → DeckNoteE) (env : DiffEnv)
    (diffidx : List GitDiffEntry) (applyChanges : α → Except ε α) (addMedia : α → α)
    (s₁ s₂ : KiState α) (colAtCheck : α) (e : ε)
    (hup : isUpToDate s₁.hashes (md5 s₁.colFile) = true)
    (hdelta : ((diffOutput parse env diffidx).filterMap
      (fun x => match x with
        | Sum.inl d => some d
        | Sum.inr _ => none)).isEmpty = false)
    (happly : applyChanges s₁.colFile = Except.error e)
    (hstale : isUpToDate s₂.hashes (md5 s₂.colFile) = false)
    (hchk : md5 colAtCheck ≠ md5 s₂.colFile) :
    pushModel md5 colName tagGen parse env diffidx applyChanges addMedia s₁
        = (s₁, PushOutcome.applyFailed e)
    ∧ pullModel md5 colName colAtCheck s₂
        = ({ s₂ with hashes := s₂.committedHashes
              ++ [hashLine (md5 s₂.colFile) colName] },
           PullOutcome.checksumError) := by
  constructor
  · unfold pushModel
    simp [hup, hdelta, happly]
  · unfold pullModel
    simp [hstale, hchk]

/-- Witness for the amended C3 at concrete inputs: a Push whose note
application fails, and a Pull hitting the checksum concurrency error. -/
theorem pass_failure_state_isolation_witness :
    @pushModel String Unit id "collection.anki2" 3
      (fun _ => ⟨"", "", "", "", [], []⟩)
      ⟨fun _ => false, fun _ => false, fun _ => true, fun _ => true⟩
      [⟨GitChangeType.modified, "n.md", "n.md"⟩] (fun _ => Except.error ()) id
      ⟨"cafe", ["cafe  collection.anki2"], ["cafe  collection.anki2"], "cafe", [], 0⟩
      = (⟨"cafe", ["cafe  collection.anki2"], ["cafe  collection.anki2"],
          "cafe", [], 0⟩, PushOutcome.applyFailed ())
    ∧ @pullModel String id "collection.anki2" "B"
      ⟨"A", ["x  collection.anki2"], ["x  collection.anki2"], "A", [], 0⟩
      = (⟨"A", ["x  collection.anki2", "A  collection.anki2"],
          ["x  collection.anki2"], "A", [], 0⟩, PullOutcome.checksumError) :=
  pass_failure_state_isolation id "collection.anki2" 3
    (fun _ => ⟨"", "", "", "", [], []⟩)
    ⟨fun _ => false, fun _ => false, fun _ => true, fun _ => true⟩
    [⟨GitChangeType.modified, "n.md", "n.md"⟩] (fun _ => Except.error ()) id
    ⟨"cafe", ["cafe  collection.anki2"], ["cafe  collection.anki2"], "cafe", [], 0⟩
    ⟨"A", ["x  collection.anki2"], ["x  collection.anki2"], "A", [], 0⟩
    "B" ()
    (by decide) (by decide) rfl (by decide) (by decide)

/-! ### GUID derivation (C4, C10) -/

/-- The big-endian byte fold is zero exactly when the accumulator and all
bytes are zero. -/
theorem foldl_mul256_eq_zero (l : List Nat) (a : Nat) :
    l.foldl (fun h b => h * 256 + b) a = 0 ↔ a = 0 ∧ ∀ b ∈ l, b = 0 := by
  induction l generalizing a with
  | nil => simp
  | cons b l ih =>
    simp only [List.foldl_cons, ih, List.mem_cons]
    constructor
    · rintro ⟨hab, hl⟩
      refine ⟨by omega, ?_⟩
      rintro x (rfl | hx)
      · omega
      · exact hl x hx
    · rintro ⟨ha, hbl⟩
      have hb := hbl b (Or.inl rfl)
      exact ⟨by omega, fun x hx => hbl x (Or.inr hx)⟩

/--
Claim C4: GUID derivation is a deterministic function of the ordered field
contents: the fixed alphabet has 91 symbols; reading the emitted digits
most-significant first in base 91 recovers exactly the integer obtained
from the digest's leading 8 bytes big-endian (over the `"__"`-join of the
field values); every emitted digit indexes the table; and two parsed
records with identical field content and no explicit GUID (empty `guid`
field) derive equal GUIDs.
-/
theorem guid_derivation_deterministic (digest : String → List Nat)
    (fields fields' : List String) (h : fields = fields') :
    BASE91_TABLE.length = 91
    ∧ ((lsbDigits (guidInt digest fields)).reverse).foldl (fun a d => a * 91 + d) 0
        = guidInt digest fields
    ∧ (∀ d ∈ lsbDigits (guidInt digest fields), d < 91)
    ∧ get_guid digest fields = get_guid digest fields'
    ∧ parseNoteGuid digest "" fields = parseNoteGuid digest "" fields' :=
  ⟨by decide, lsbDigits_decode _, lsbDigits_lt _, by rw [h], by rw [h]⟩

/-- Witness for C4 at a concrete digest and field list. -/
theorem guid_derivation_deterministic_witness :
    BASE91_TABLE.length = 91
    ∧ ((lsbDigits (guidInt (fun _ => [1, 2, 3, 4, 5, 6, 7, 8])
        ["front", "back"])).reverse).foldl (fun a d => a * 91 + d) 0
        = guidInt (fun _ => [1, 2, 3, 4, 5, 6, 7, 8]) ["front", "back"]
    ∧ (∀ d ∈ lsbDigits (guidInt (fun _ => [1, 2, 3, 4, 5, 6, 7, 8])
        ["front", "back"]), d < 91)
    ∧ get_guid (fun _ => [1, 2, 3, 4, 5, 6, 7, 8]) ["front", "back"]
        = get_guid (fun _ => [1, 2, 3, 4, 5, 6, 7, 8]) ["front", "back"]
    ∧ parseNoteGuid (fun _ => [1, 2, 3, 4, 5, 6, 7, 8]) "" ["front", "back"]
        = parseNoteGuid (fun _ => [1, 2, 3, 4, 5, 6, 7, 8]) "" ["front", "back"] :=
  guid_derivation_deterministic (fun _ => [1, 2, 3, 4, 5, 6, 7, 8])
    ["front", "back"] ["front", "back"] rfl

/--
Claim C10: If the digest of the joined fields begins with eight zero bytes,
the derived GUID is the empty string (the digit loop runs zero times);
for every other digest value the GUID is nonempty, all its characters
are drawn from the 91-symbol table, and its most-significant digit is
nonzero (no leading padding).
-/
theorem get_guid_zero_or_canonical (digest : String → List Nat)
    (fields : List String) :
    ((∀ b ∈ (digest (String.intercalate "__" fields)).take 8, b = 0) →
        get_guid digest fields = "")
    ∧ ((¬ ∀ b ∈ (digest (String.intercalate "__" fields)).take 8, b = 0) →
        get_guid digest fields ≠ ""
        ∧ (∀ c ∈ (get_guid digest fields).data, c ∈ BASE91_TABLE)
        ∧ (lsbDigits (guidInt digest fields)).getLast? ≠ some 0) := by
  constructor
  · intro hz
    have hx : guidInt digest fields = 0 :=
      (foldl_mul256_eq_zero _ _).mpr ⟨rfl, hz⟩
    unfold get_guid
    rw [hx]
    rfl
  · intro hnz
    have hx : guidInt digest fields ≠ 0 := by
      intro h0
      exact hnz ((foldl_mul256_eq_zero _ _).mp h0).2
    have hpos : 0 < guidInt digest fields := Nat.pos_of_ne_zero hx
    have hne : lsbDigits (guidInt digest fields) ≠ [] := by
      intro h0
      exact hx ((lsbDigits_nil_iff _).mp h0)
    refine ⟨?_, ?_, lsbDigits_getLast?_ne_zero _ hpos⟩
    · intro hcontra
      apply hne
      have hrev : ((lsbDigits (guidInt digest fields)).map
          (fun d => BASE91_TABLE.getD d 'a')).reverse = ([] : List Char) :=
        congrArg String.data hcontra
      simpa using hrev
    · intro c hc
      have hc' : c ∈ ((lsbDigits (guidInt digest fields)).map
          (fun d => BASE91_TABLE.getD d 'a')).reverse := hc
      rw [List.mem_reverse] at hc'
      obtain ⟨d, hd, rfl⟩ := List.mem_map.mp hc'
      have hlt := lsbDigits_lt _ d hd
      have hlen : d < BASE91_TABLE.length := by
        have h91 : BASE91_TABLE.length = 91 := by decide
        omega
      have hgetd : BASE91_TABLE.getD d 'a' = BASE91_TABLE.get ⟨d, hlen⟩ := by
        rw [List.getD_eq_getElem?_getD, List.getElem?_eq_getElem hlen]
        rfl
      rw [hgetd]
      exact List.get_mem _ _ _

/-- Witness for C10: an all-zero leading digest yields the empty GUID; a
digest ending in byte 1 yields a nonempty GUID. -/
theorem get_guid_zero_or_canonical_witness :
    get_guid (fun _ => [0, 0, 0, 0, 0, 0, 0, 0]) ["a"] = ""
    ∧ get_guid (fun _ => [0, 0, 0, 0, 0, 0, 0, 1]) ["a"] ≠ "" :=
  ⟨(get_guid_zero_or_canonical (fun _ => [0, 0, 0, 0, 0, 0, 0, 0]) ["a"]).1
      (by decide),
   ((get_guid_zero_or_canonical (fun _ => [0, 0, 0, 0, 0, 0, 0, 1]) ["a"]).2
      (by decide)).1⟩

/-! ### Rename disambiguation in the diff engine (C5) -/

/--
Claim C5: For a diff entry reported as Renamed whose new side exists and is
a recognized record file (neither side ignorable): if the parsed GUIDs of
the old and new sides differ, `mungediff` emits exactly the pair
`[Delta(Deleted, old), Delta(Added, new)]`; if the GUIDs are equal, it
emits exactly one Delta carrying the reported change type and the new
path — never a deletion of the record.
-/
theorem mungediff_rename_guid (parse : DeltaE → DeckNoteE) (env : DiffEnv)
    (d : GitDiffEntry)
    (hr : d.change_type = GitChangeType.renamed)
    (ha : env.ignorableA (if d.a_path = "" then d.b_path else d.a_path) = false)
    (hb : env.ignorableB (if d.b_path = "" then d.a_path else d.b_path) = false)
    (hf : env.isfileB (if d.b_path = "" then d.a_path else d.b_path) = true) :
    ((parse ⟨GitChangeType.deleted,
          if d.a_path = "" then d.b_path else d.a_path,
          if d.a_path = "" then d.b_path else d.a_path⟩).guid
        ≠ (parse ⟨GitChangeType.added,
          if d.b_path = "" then d.a_path else d.b_path,
          if d.b_path = "" then d.a_path else d.b_path⟩).guid →
      mungediff parse env d
        = [Sum.inl ⟨GitChangeType.deleted,
            if d.a_path = "" then d.b_path else d.a_path,
            if d.a_path = "" then d.b_path else d.a_path⟩,
           Sum.inl ⟨GitChangeType.added,
            if d.b_path = "" then d.a_path else d.b_path,
            if d.b_path = "" then d.a_path else d.b_path⟩])
    ∧ ((parse ⟨GitChangeType.deleted,
          if d.a_path = "" then d.b_path else d.a_path,
          if d.a_path = "" then d.b_path else d.a_path⟩).guid
        = (parse ⟨GitChangeType.added,
          if d.b_path = "" then d.a_path else d.b_path,
          if d.b_path = "" then d.a_path else d.b_path⟩).guid →
      mungediff parse env d
        = [Sum.inl ⟨GitChangeType.renamed,
            if d.b_path = "" then d.a_path else d.b_path,
            if d.b_path = "" then d.a_path else d.b_path⟩]) := by
  constructor
  · intro hg
    unfold mungediff
    rw [hr]
    simp [ite_not, ha, hb, hf, hg]
  · intro hg
    unfold mungediff
    rw [hr]
    simp [ite_not, ha, hb, hf, hg]

/-- Witness for C5: a rename entry between `old.md` and `new.md`, once
with differing parsed GUIDs (Delete+Add pair) and once with matching
GUIDs (a single Renamed delta). -/
theorem mungediff_rename_guid_witness :
    mungediff (fun δ => ⟨"", δ.path, "", "", [], []⟩)
      ⟨fun _ => false, fun _ => false, fun _ => true, fun _ => true⟩
      ⟨GitChangeType.renamed, "old.md", "new.md"⟩
      = [Sum.inl ⟨GitChangeType.deleted, "old.md", "old.md"⟩,
         Sum.inl ⟨GitChangeType.added, "new.md", "new.md"⟩]
    ∧ mungediff (fun _ => ⟨"", "g", "", "", [], []⟩)
      ⟨fun _ => false, fun _ => false, fun _ => true, fun _ => true⟩
      ⟨GitChangeType.renamed, "old.md", "new.md"⟩
      = [Sum.inl ⟨GitChangeType.renamed, "new.md", "new.md"⟩] :=
  ⟨(mungediff_rename_guid (fun δ => ⟨"", δ.path, "", "", [], []⟩)
      ⟨fun _ => false, fun _ => false, fun _ => true, fun _ => true⟩
      ⟨GitChangeType.renamed, "old.md", "new.md"⟩
      rfl (by decide) (by decide) (by decide)).1 (by decide),
   (mungediff_rename_guid (fun _ => ⟨"", "g", "", "", [], []⟩)
      ⟨fun _ => false, fun _ => false, fun _ => true, fun _ => true⟩
      ⟨GitChangeType.renamed, "old.md", "new.md"⟩
      rfl (by decide) (by decide) (by decide)).2 (by decide)⟩

/-! ### Schema dedup on Push (C6) -/

/--
Claim C6 counterexample: As stated, the claim is false at this concrete
input: on a same-name collision with differing content, `add_model` emits
the `NotetypeCollisionWarning` but then *falls through to
`col.models.add_dict`* (source lines 1353-1355), so a new schema entry
*is* created — the model store grows from one entry to two.
-/
theorem add_model_collision_adds_entry :
    add_model 99 [⟨5, "Basic", 10⟩] ⟨7, "Basic", 20⟩
      = ([⟨5, "Basic", 10⟩, ⟨99, "Basic", 20⟩],
         [ModelWarning.notetypeCollision ⟨7, "Basic", 20⟩ ⟨5, "Basic", 10⟩])
    ∧ (add_model 99 [⟨5, "Basic", 10⟩] ⟨7, "Basic", 20⟩).1.length
        ≠ ([⟨5, "Basic", 10⟩] : List NotetypeE).length := by
  constructor
  · decide
  · decide

/--
Claim C6 (amended): For a schema pushed against the database: if a schema
of the same name with exactly matching (id-independent) content exists,
the add is skipped and no new entry is created; if a schema of the same
name but differing content exists, a `NotetypeCollisionWarning` is
emitted and a *new entry is nonetheless appended* under a fresh engine id
— the pre-existing entries, in particular the colliding schema, are left
unmodified.
-/
theorem add_model_dedup (freshId : Nat) (col : List NotetypeE)
    (model existing : NotetypeE)
    (hfind : col.find? (fun nt => nt.name = model.name) = some existing)
    (hget : getModel col existing.id = some existing) :
    (notetypeJson model = notetypeJson existing →
       add_model freshId col model = (col, []))
    ∧ (notetypeJson model ≠ notetypeJson existing →
       add_model freshId col model
         = (col ++ [{ model with id := freshId }],
            [ModelWarning.notetypeCollision model existing])) := by
  have hid : idForName col model.name = some existing.id := by
    unfold idForName
    rw [hfind]
    rfl
  constructor
  · intro hj
    unfold add_model
    rw [hid]
    simp only [hget]
    simp [hj]
  · intro hj
    unfold add_model
    rw [hid]
    simp only [hget]
    simp [hj, addDict]

/-- Witness for the amended C6: adding `Basic` with identical content is a
no-op; adding `Basic` with changed content warns and appends a fresh
entry. -/
theorem add_model_dedup_witness :
    add_model 99 [⟨5, "Basic", 10⟩] ⟨7, "Basic", 10⟩ = ([⟨5, "Basic", 10⟩], [])
    ∧ add_model 99 [⟨5, "Basic", 10⟩] ⟨8, "Basic", 20⟩
        = ([⟨5, "Basic", 10⟩, ⟨99, "Basic", 20⟩],
           [ModelWarning.notetypeCollision ⟨8, "Basic", 20⟩ ⟨5, "Basic", 10⟩]) :=
  ⟨(add_model_dedup 99 [⟨5, "Basic", 10⟩] ⟨7, "Basic", 10⟩ ⟨5, "Basic", 10⟩
      (by decide) (by decide)).1 (by decide),
   (add_model_dedup 99 [⟨5, "Basic", 10⟩] ⟨8, "Basic", 20⟩ ⟨5, "Basic", 10⟩
      (by decide) (by decide)).2 (by decide)⟩

/-! ### Media reconciliation (C7) -/

/-- Unfolding equation for `mediaPhase` on a nonempty file list. -/
theorem mediaPhase_cons (addFile : List (String × List Nat) → String →
      List Nat → List (String × List Nat) × String)
    (store : List (String × List Nat)) (f : String × List Nat)
    (fs : List (String × List Nat)) :
    mediaPhase addFile store (f :: fs)
      = if mediadata store f.1 = [] ∨ mediadata store f.1 ≠ f.2 then
          ((mediaPhase addFile (addFile store f.1 f.2).1 fs).1,
           (f.1, (addFile store f.1 f.2).2)
             :: (mediaPhase addFile (addFile store f.1 f.2).1 fs).2.1,
           (if f.1 ≠ (addFile store f.1 f.2).2 then
              [MediaWarning.renamedMediaFile f.1 (addFile store f.1 f.2).2]
            else [])
             ++ (mediaPhase addFile (addFile store f.1 f.2).1 fs).2.2)
        else mediaPhase addFile store fs := by
  rcases haf : addFile store f.1 f.2 with ⟨s', n⟩
  rcases hmp : mediaPhase addFile s' fs with ⟨sF, added, warns⟩
  conv_lhs => unfold mediaPhase
  by_cases hp : mediadata store f.1 = [] ∨ mediadata store f.1 ≠ f.2
  · have hp' : (mediabytes store f).old = []
        ∨ (mediabytes store f).old ≠ (mediabytes store f).new := hp
    simp [hp', hp, haf, hmp]
  · have hp' : ¬ ((mediabytes store f).old = []
        ∨ (mediabytes store f).old ≠ (mediabytes store f).new) := hp
    simp [hp', hp]

/-- Helper: the media phase's warnings are exactly the rename warnings of
its added files (one per name mismatch, in order). -/
theorem mediaPhase_warns_eq (addFile : List (String × List Nat) → String →
      List Nat → List (String × List Nat) × String)
    (files : List (String × List Nat)) :
    ∀ store, (mediaPhase addFile store files).2.2
      = ((mediaPhase addFile store files).2.1).filterMap
          (fun q => if q.1 ≠ q.2 then
            some (MediaWarning.renamedMediaFile q.1 q.2) else none) := by
  induction files with
  | nil => intro store; rfl
  | cons f fs ih =>
    intro store
    rw [mediaPhase_cons]
    by_cases hp : mediadata store f.1 = [] ∨ mediadata store f.1 ≠ f.2
    · rw [if_pos hp]
      have hw := ih (addFile store f.1 f.2).1
      simp only [List.filterMap_cons]
      by_cases hn : f.1 ≠ (addFile store f.1 f.2).2
      · simp only [if_pos hn, hw]
        simp [hn]
      · simp only [if_neg hn, hw]
        simp [hn]
    · rw [if_neg hp]
      exact ih store

/--
Claim C7: During Push media reconciliation each working-tree attachment is
added to the store iff its old counterpart is absent (empty bytes) or its
stored bytes differ from the working-tree bytes; a file whose stored
bytes equal the new bytes is skipped entirely; and the pass's warnings
are exactly one non-fatal `RenamedMediaFileWarning(old, new)` per added
file whose returned name differs from the requested one — the pass
continues past them.
-/
theorem media_reconciliation (addFile : List (String × List Nat) → String →
      List Nat → List (String × List Nat) × String)
    (store : List (String × List Nat)) (f : String × List Nat)
    (fs : List (String × List Nat)) :
    ((mediadata store f.1 = [] ∨ mediadata store f.1 ≠ f.2) →
       mediaPhase addFile store (f :: fs)
         = ((mediaPhase addFile (addFile store f.1 f.2).1 fs).1,
            (f.1, (addFile store f.1 f.2).2)
              :: (mediaPhase addFile (addFile store f.1 f.2).1 fs).2.1,
            (if f.1 ≠ (addFile store f.1 f.2).2 then
               [MediaWarning.renamedMediaFile f.1 (addFile store f.1 f.2).2]
             else [])
              ++ (mediaPhase addFile (addFile store f.1 f.2).1 fs).2.2))
    ∧ ((mediadata store f.1 ≠ [] ∧ mediadata store f.1 = f.2) →
       mediaPhase addFile store (f :: fs) = mediaPhase addFile store fs)
    ∧ (mediaPhase addFile store (f :: fs)).2.2
        = ((mediaPhase addFile store (f :: fs)).2.1).filterMap
            (fun q => if q.1 ≠ q.2 then
              some (MediaWarning.renamedMediaFile q.1 q.2) else none) := by
  refine ⟨?_, ?_, mediaPhase_warns_eq addFile (f :: fs) store⟩
  · intro hp
    rw [mediaPhase_cons, if_pos hp]
  · intro hp
    rw [mediaPhase_cons, if_neg (by push_neg; exact ⟨hp.1, hp.2⟩)]

/-- Witness for C7: an absent file is added (and its collision rename
warned about), a file whose stored bytes equal the new bytes is skipped. -/
theorem media_reconciliation_witness :
    mediaPhase (fun st n bs => (st ++ [(n ++ "_1", bs)], n ++ "_1"))
        [("b.png", [2])] [("a.png", [1])]
      = ([("b.png", [2]), ("a.png_1", [1])], [("a.png", "a.png_1")],
         [MediaWarning.renamedMediaFile "a.png" "a.png_1"])
    ∧ mediaPhase (fun st n bs => (st ++ [(n ++ "_1", bs)], n ++ "_1"))
        [("b.png", [2])] [("b.png", [2])]
      = ([("b.png", [2])], [], []) :=
  ⟨by
    have h := (media_reconciliation
      (fun st n bs => (st ++ [(n ++ "_1", bs)], n ++ "_1"))
      [("b.png", [2])] ("a.png", [1]) []).1 (by decide)
    simpa using h,
   by
    have h := (media_reconciliation
      (fun st n bs => (st ++ [(n ++ "_1", bs)], n ++ "_1"))
      [("b.png", [2])] ("b.png", [2]) []).2.1 (by decide)
    simpa using h⟩

/-! ### Card-file map lemmas (C8) -/

theorem alookup_aset_self {β : Type} (m : List (Nat × β)) (k : Nat) (v : β) :
    alookup (aset m k v) k = some v := by
  induction m with
  | nil => simp [aset, alookup]
  | cons kv rest ih =>
    by_cases h : kv.1 = k
    · simp [aset, h, alookup]
    · simp [aset, h, alookup, ih]

theorem alookup_aset_ne {β : Type} (m : List (Nat × β)) (k k' : Nat) (v : β)
    (h : k' ≠ k) : alookup (aset m k v) k' = alookup m k' := by
  induction m with
  | nil => simp [aset, alookup, Ne.symm h]
  | cons kv rest ih =>
    by_cases hk : kv.1 = k
    · subst hk
      simp [aset, alookup, Ne.symm h]
    · simp [aset, hk, alookup, ih]

theorem alookup_mem {β : Type} (m : List (Nat × β)) (k : Nat) (v : β)
    (h : alookup m k = some v) : (k, v) ∈ m := by
  induction m with
  | nil => simp [alookup] at h
  | cons kv rest ih =>
    by_cases hk : kv.1 = k
    · rw [alookup, if_pos hk] at h
      obtain ⟨a, b⟩ := kv
      cases hk
      cases Option.some.inj h
      exact List.mem_cons_self _ _
    · rw [alookup, if_neg hk] at h
      exact List.mem_cons_of_mem _ (ih h)

theorem alookup_eq_none {β : Type} (m : List (Nat × β)) (k : Nat)
    (h : k ∉ m.map Prod.fst) : alookup m k = none := by
  induction m with
  | nil => rfl
  | cons kv rest ih =>
    simp only [List.map_cons, List.mem_cons] at h
    push_neg at h
    rw [alookup, if_neg (fun he => h.1 he.symm)]
    exact ih h.2

theorem alookup_isSome_of_mem {β : Type} (m : List (Nat × β)) (k : Nat)
    (h : k ∈ m.map Prod.fst) : ∃ v, alookup m k = some v := by
  induction m with
  | nil => simp at h
  | cons kv rest ih =>
    by_cases hk : kv.1 = k
    · exact ⟨kv.2, by rw [alookup, if_pos hk]⟩
    · simp only [List.map_cons, List.mem_cons] at h
      rcases h with h | h
      · exact absurd h.symm hk
      · obtain ⟨v, hv⟩ := ih h
        exact ⟨v, by rw [alookup, if_neg hk]; exact hv⟩

theorem aset_of_not_mem {β : Type} (m : List (Nat × β)) (k : Nat) (v : β)
    (h : k ∉ m.map Prod.fst) : aset m k v = m ++ [(k, v)] := by
  induction m with
  | nil => rfl
  | cons kv rest ih =>
    simp only [List.map_cons, List.mem_cons] at h
    push_neg at h
    rw [aset, if_neg (fun he => h.1 he.symm)]
    rw [ih h.2]
    rfl

theorem aset_map_fst_of_mem {β : Type} (m : List (Nat × β)) (k : Nat) (v : β)
    (h : k ∈ m.map Prod.fst) : (aset m k v).map Prod.fst = m.map Prod.fst := by
  induction m with
  | nil => simp at h
  | cons kv rest ih =>
    by_cases hk : kv.1 = k
    · rw [aset, if_pos hk]
      simp [hk]
    · simp only [List.map_cons, List.mem_cons] at h
      rcases h with h | h
      · exact absurd h.symm hk
      · rw [aset, if_neg hk]
        simp [ih h]

theorem mem_aset {β : Type} (m : List (Nat × β)) (k : Nat) (v : β) :
    ∀ e ∈ aset m k v, e = (k, v) ∨ e ∈ m := by
  induction m with
  | nil =>
    intro e he
    simp [aset] at he
    exact Or.inl he
  | cons kv rest ih =>
    intro e he
    by_cases hk : kv.1 = k
    · rw [aset, if_pos hk] at he
      rcases List.mem_cons.mp he with h | h
      · exact Or.inl h
      · exact Or.inr (List.mem_cons_of_mem _ h)
    · rw [aset, if_neg hk] at he
      rcases List.mem_cons.mp he with h | h
      · exact Or.inr (h ▸ List.mem_cons_self _ _)
      · rcases ih e h with h' | h'
        · exact Or.inl h'
        · exact Or.inr (List.mem_cons_of_mem _ h')

theorem aset_headD_ne {β : Type} (m : List (Nat × β)) (k : Nat) (v : β)
    (d : Nat × β) (hm : m ≠ []) (hh : (m.headD d).1 ≠ k) :
    (aset m k v).headD d = m.headD d := by
  cases m with
  | nil => exact absurd rfl hm
  | cons kv rest =>
    rw [aset, if_neg (by simpa using hh)]
    rfl

theorem aset_headD_eq {β : Type} (m : List (Nat × β)) (k : Nat) (v : β)
    (d : Nat × β) (hm : m ≠ []) (hh : (m.headD d).1 = k) :
    (aset m k v).headD d = (k, v) := by
  cases m with
  | nil => exact absurd rfl hm
  | cons kv rest =>
    rw [aset, if_pos (by simpa using hh)]
    rfl

/-- The `write_card` branch 1 (no entry for the note yet): write a payload
file here. -/
theorem write_card_new (deckDid : Nat) (nf : Notefiles) (evs : List WEvent)
    (cd : CardE) (h : (alookup nf cd.nid).getD [] = []) :
    write_card deckDid (nf, evs) cd
      = (aset nf cd.nid [(deckDid, [⟨cd.cid, (deckDid, cd.nid), none⟩])],
         evs ++ [WEvent.write cd.nid deckDid]) := by
  unfold write_card
  simp only [h]
  rfl

/-- The `write_card` branch 2 (an entry for the note in this very deck):
reuse its first card-file, no filesystem event. -/
theorem write_card_reuse (deckDid : Nat) (nf : Notefiles) (evs : List WEvent)
    (cd : CardE) (m : List (Nat × List CardFileL)) (cfs : List CardFileL)
    (hm : alookup nf cd.nid = some m) (hmne : m ≠ [])
    (hcfs : alookup m deckDid = some cfs) (hcne : cfs ≠ []) :
    write_card deckDid (nf, evs) cd
      = (aset nf cd.nid (aset m deckDid (cfs
          ++ [⟨cd.cid, (cfs.headD dummyCF).file, (cfs.headD dummyCF).link⟩])),
         evs) := by
  unfold write_card
  simp only [hm, hcfs, Option.getD_some]
  cases m with
  | nil => exact absurd rfl hmne
  | cons e m' =>
    cases cfs with
    | nil => exact absurd rfl hcne
    | cons c0 cfs' => rfl

/-- The `write_card` branch 3 (entries for the note only in other decks):
create a link to the canonical file. -/
theorem write_card_link (deckDid : Nat) (nf : Notefiles) (evs : List WEvent)
    (cd : CardE) (m : List (Nat × List CardFileL))
    (hm : alookup nf cd.nid = some m) (hmne : m ≠ [])
    (hcfs : (alookup m deckDid).getD [] = []) :
    write_card deckDid (nf, evs) cd
      = (aset nf cd.nid (aset m deckDid
          [⟨cd.cid, ((m.headD (0, [])).2.headD dummyCF).file,
            some ((m.headD (0, [])).2.headD dummyCF).file⟩]),
         evs ++ [WEvent.link cd.nid deckDid
           ((m.headD (0, [])).2.headD dummyCF).file]) := by
  unfold write_card
  simp only [hm, hcfs, Option.getD_some]
  cases m with
  | nil => exact absurd rfl hmne
  | cons e m' => rfl

theorem filter_append_single (p : WEvent → Bool) (evs : List WEvent)
    (e : WEvent) :
    (evs ++ [e]).filter p = evs.filter p ++ if p e then [e] else [] := by
  rw [List.filter_append]
  cases hpe : p e <;> simp [hpe]

theorem headD_mem {β : Type} (m : List (Nat × β)) (d : Nat × β) (hm : m ≠ []) :
    m.headD d ∈ m := by
  cases m with
  | nil => exact absurd rfl hm
  | cons e m' => exact List.mem_cons_self _ _

theorem canonShape_init (deckDid nid cid : Nat) :
    canonShape [deckDid] (deckDid, nid)
      [(deckDid, [⟨cid, (deckDid, nid), none⟩])] := by
  refine ⟨rfl, ?_, rfl⟩
  intro e he
  simp only [List.mem_singleton] at he
  subst he
  simp

theorem canonShape_keys_ne_nil (ks : List Nat) (c : Nat × Nat)
    (m : List (Nat × List CardFileL)) (h : canonShape ks c m) (hk : ks ≠ []) :
    m ≠ [] := by
  intro h0
  subst h0
  exact hk h.1.symm

theorem canonShape_extend (ks : List Nat) (c : Nat × Nat)
    (m : List (Nat × List CardFileL)) (deckDid : Nat) (cf : CardFileL)
    (h : canonShape ks c m) (hkne : ks ≠ []) (hnot : deckDid ∉ ks) :
    canonShape (ks ++ [deckDid]) c (aset m deckDid [cf]) := by
  obtain ⟨hkeys, hne, hhead⟩ := h
  have hm : m ≠ [] := canonShape_keys_ne_nil ks c m ⟨hkeys, hne, hhead⟩ hkne
  have hnotm : deckDid ∉ m.map Prod.fst := by rw [hkeys]; exact hnot
  rw [aset_of_not_mem _ _ _ hnotm]
  refine ⟨by simp [hkeys], ?_, ?_⟩
  · intro e he
    rcases List.mem_append.mp he with h' | h'
    · exact hne e h'
    · simp only [List.mem_singleton] at h'
      subst h'
      simp
  · cases m with
    | nil => exact absurd rfl hm
    | cons e m' => simpa using hhead

theorem canonShape_update (ks : List Nat) (c : Nat × Nat)
    (m : List (Nat × List CardFileL)) (deckDid : Nat) (cfs : List CardFileL)
    (cf : CardFileL) (h : canonShape ks c m)
    (hcfs : alookup m deckDid = some cfs) :
    canonShape ks c (aset m deckDid (cfs ++ [cf])) := by
  obtain ⟨hkeys, hne, hhead⟩ := h
  have hmemm : (deckDid, cfs) ∈ m := alookup_mem m deckDid cfs hcfs
  have hmem : deckDid ∈ m.map Prod.fst := List.mem_map.mpr ⟨(deckDid, cfs), hmemm, rfl⟩
  have hm : m ≠ [] := by
    intro h0
    subst h0
    simp at hmemm
  refine ⟨by rw [aset_map_fst_of_mem _ _ _ hmem, hkeys], ?_, ?_⟩
  · intro e he
    rcases mem_aset m deckDid (cfs ++ [cf]) e he with h' | h'
    · subst h'
      simp
    · exact hne e h'
  · by_cases hh : (m.headD (0, [])).1 = deckDid
    · rw [aset_headD_eq _ _ _ _ hm hh]
      have hl : alookup m deckDid = some (m.headD (0, [])).2 := by
        cases m with
        | nil => exact absurd rfl hm
        | cons e m' =>
          rw [alookup, if_pos (by simpa using hh)]
          rfl
      have hceq : cfs = (m.headD (0, [])).2 := Option.some.inj (hcfs.symm.trans hl)
      have hcne : cfs ≠ [] := by
        rw [hceq]
        exact hne _ (headD_mem m (0, []) hm)
      have happ : (cfs ++ [cf]).headD dummyCF = cfs.headD dummyCF := by
        cases cfs with
        | nil => exact absurd rfl hcne
        | cons c0 cfs' => rfl
      simp only [happ]
      rw [hceq]
      exact hhead
    · rw [aset_headD_ne _ _ _ _ hm hh]
      exact hhead

/-- Processing a card of another note neither touches this note's
card-file-map entry nor emits events attributed to this note. -/
theorem write_card_other (nid deckDid : Nat) (nf : Notefiles)
    (evs : List WEvent) (cd : CardE) (hne : cd.nid ≠ nid) :
    alookup (write_card deckDid (nf, evs) cd).1 nid = alookup nf nid
    ∧ ((write_card deckDid (nf, evs) cd).2).filter (isWriteOf nid)
        = evs.filter (isWriteOf nid)
    ∧ ((write_card deckDid (nf, evs) cd).2).filter (isLinkOf nid)
        = evs.filter (isLinkOf nid) := by
  rcases h1 : alookup nf cd.nid with _ | m
  · rw [write_card_new deckDid nf evs cd (by rw [h1]; rfl)]
    refine ⟨alookup_aset_ne _ _ _ _ (Ne.symm hne), ?_, ?_⟩
    · rw [filter_append_single]
      simp [isWriteOf, hne]
    · rw [filter_append_single]
      simp [isLinkOf]
  · cases hm0 : m with
    | nil =>
      rw [write_card_new deckDid nf evs cd (by rw [h1, hm0]; rfl)]
      refine ⟨alookup_aset_ne _ _ _ _ (Ne.symm hne), ?_, ?_⟩
      · rw [filter_append_single]
        simp [isWriteOf, hne]
      · rw [filter_append_single]
        simp [isLinkOf]
    | cons e m' =>
      subst hm0
      by_cases h2 : (alookup (e :: m') deckDid).getD [] = []
      · rw [write_card_link deckDid nf evs cd (e :: m') h1 (by simp) h2]
        refine ⟨alookup_aset_ne _ _ _ _ (Ne.symm hne), ?_, ?_⟩
        · rw [filter_append_single]
          simp [isWriteOf]
        · rw [filter_append_single]
          simp [isLinkOf, hne]
      · rcases h3 : alookup (e :: m') deckDid with _ | cfs
        · rw [h3] at h2
          simp at h2
        · have hcne : cfs ≠ [] := by
            intro h0
            rw [h3, h0] at h2
            simp at h2
          rw [write_card_reuse deckDid nf evs cd (e :: m') cfs h1 (by simp) h3 hcne]
          exact ⟨alookup_aset_ne _ _ _ _ (Ne.symm hne), rfl, rfl⟩

/-- Stability: once this note has a card-file entry for this very deck,
further cards in the deck reuse it — the shape is preserved and no events
attributed to the note are emitted. -/
theorem cards_fold_stable (nid deckDid : Nat) (ks : List Nat) (c : Nat × Nat)
    (hmem : deckDid ∈ ks) :
    ∀ (cs : List CardE) (nf : Notefiles) (evs : List WEvent)
      (m : List (Nat × List CardFileL)),
      alookup nf nid = some m → canonShape ks c m →
    (∃ m', alookup (cs.foldl (write_card deckDid) (nf, evs)).1 nid = some m'
        ∧ canonShape ks c m')
    ∧ ((cs.foldl (write_card deckDid) (nf, evs)).2).filter (isWriteOf nid)
        = evs.filter (isWriteOf nid)
    ∧ ((cs.foldl (write_card deckDid) (nf, evs)).2).filter (isLinkOf nid)
        = evs.filter (isLinkOf nid) := by
  intro cs
  induction cs with
  | nil =>
    intro nf evs m hm hshape
    exact ⟨⟨m, hm, hshape⟩, rfl, rfl⟩
  | cons cd cs ih =>
    intro nf evs m hm hshape
    by_cases hcd : cd.nid = nid
    · have hmemk : deckDid ∈ m.map Prod.fst := by rw [hshape.1]; exact hmem
      obtain ⟨cfs, hcfs⟩ := alookup_isSome_of_mem m deckDid hmemk
      have hcne : cfs ≠ [] := hshape.2.1 _ (alookup_mem m deckDid cfs hcfs)
      have hmne : m ≠ [] := by
        intro h0
        subst h0
        simp at hmemk
      have hstep := write_card_reuse deckDid nf evs cd m cfs
        (by rw [hcd]; exact hm) hmne hcfs hcne
      simp only [List.foldl_cons, hstep]
      have hm1 : alookup (aset nf cd.nid (aset m deckDid (cfs
          ++ [⟨cd.cid, (cfs.headD dummyCF).file, (cfs.headD dummyCF).link⟩]))) nid
          = some (aset m deckDid (cfs
          ++ [⟨cd.cid, (cfs.headD dummyCF).file, (cfs.headD dummyCF).link⟩])) := by
        rw [hcd]
        exact alookup_aset_self _ _ _
      exact ih _ _ _ hm1 (canonShape_update ks c m deckDid cfs _ hshape hcfs)
    · have hstep := write_card_other nid deckDid nf evs cd hcd
      rcases hw : write_card deckDid (nf, evs) cd with ⟨nf₁, evs₁⟩
      rw [hw] at hstep
      simp only [List.foldl_cons, hw]
      obtain ⟨hl, hwf, hlf⟩ := hstep
      have := ih nf₁ evs₁ m (by rw [hl]; exact hm) hshape
      rw [hwf, hlf] at this
      exact this

/-- Folding a deck's cards starting with no entry for the note: if the
deck owns a card of the note, exactly one payload-write event is emitted
and the entry is created with this deck as canonical; otherwise nothing
attributed to the note happens. -/
theorem cards_fold_fresh (nid deckDid : Nat) :
    ∀ (cs : List CardE) (nf : Notefiles) (evs : List WEvent),
      alookup nf nid = none →
    if cs.any (fun cd => cd.nid = nid) then
      (∃ m', alookup (cs.foldl (write_card deckDid) (nf, evs)).1 nid = some m'
          ∧ canonShape [deckDid] (deckDid, nid) m')
      ∧ ((cs.foldl (write_card deckDid) (nf, evs)).2).filter (isWriteOf nid)
          = evs.filter (isWriteOf nid) ++ [WEvent.write nid deckDid]
      ∧ ((cs.foldl (write_card deckDid) (nf, evs)).2).filter (isLinkOf nid)
          = evs.filter (isLinkOf nid)
    else
      alookup (cs.foldl (write_card deckDid) (nf, evs)).1 nid = none
      ∧ ((cs.foldl (write_card deckDid) (nf, evs)).2).filter (isWriteOf nid)
          = evs.filter (isWriteOf nid)
      ∧ ((cs.foldl (write_card deckDid) (nf, evs)).2).filter (isLinkOf nid)
          = evs.filter (isLinkOf nid) := by
  intro cs
  induction cs with
  | nil =>
    intro nf evs hm
    simp only [List.any_nil, if_false, Bool.false_eq_true]
    exact ⟨hm, rfl, rfl⟩
  | cons cd cs ih =>
    intro nf evs hm
    by_cases hcd : cd.nid = nid
    · have hstep := write_card_new deckDid nf evs cd (by rw [hcd, hm]; rfl)
      simp only [List.any_cons, decide_eq_true hcd, Bool.true_or, if_true,
        List.foldl_cons, hstep]
      have hm1 : alookup (aset nf cd.nid
          [(deckDid, [⟨cd.cid, (deckDid, cd.nid), none⟩])]) nid
          = some [(deckDid, [⟨cd.cid, (deckDid, cd.nid), none⟩])] := by
        rw [hcd]
        exact alookup_aset_self _ _ _
      have hshape : canonShape [deckDid] (deckDid, nid)
          [(deckDid, [⟨cd.cid, (deckDid, cd.nid), none⟩])] := by
        rw [hcd]
        exact canonShape_init deckDid nid cd.cid
      have hst := cards_fold_stable nid deckDid [deckDid] (deckDid, nid)
        (List.mem_singleton.mpr rfl) cs
        (aset nf cd.nid [(deckDid, [⟨cd.cid, (deckDid, cd.nid), none⟩])])
        (evs ++ [WEvent.write cd.nid deckDid])
        [(deckDid, [⟨cd.cid, (deckDid, cd.nid), none⟩])] hm1 hshape
      obtain ⟨hex, hwf, hlf⟩ := hst
      refine ⟨hex, ?_, ?_⟩
      · rw [hwf, filter_append_single]
        simp [isWriteOf, hcd]
      · rw [hlf, filter_append_single]
        simp [isLinkOf]
    · have hstep := write_card_other nid deckDid nf evs cd hcd
      rcases hw : write_card deckDid (nf, evs) cd with ⟨nf₁, evs₁⟩
      rw [hw] at hstep
      obtain ⟨hl, hwf, hlf⟩ := hstep
      simp only [List.any_cons, decide_eq_false hcd, Bool.false_or,
        List.foldl_cons, hw]
      have := ih nf₁ evs₁ (by rw [hl]; exact hm)
      rw [hwf, hlf] at this
      exact this

/-- Folding a deck's cards when the note already has a canonical entry in
*other* decks: if the deck owns a card of the note, exactly one link
event to the canonical file is emitted and the deck is appended to the
entry's keys; otherwise nothing attributed to the note happens. -/
theorem cards_fold_cont (nid deckDid : Nat) (ks : List Nat) (c : Nat × Nat)
    (hkne : ks ≠ []) (hnot : deckDid ∉ ks) :
    ∀ (cs : List CardE) (nf : Notefiles) (evs : List WEvent)
      (m : List (Nat × List CardFileL)),
      alookup nf nid = some m → canonShape ks c m →
    if cs.any (fun cd => cd.nid = nid) then
      (∃ m', alookup (cs.foldl (write_card deckDid) (nf, evs)).1 nid = some m'
          ∧ canonShape (ks ++ [deckDid]) c m')
      ∧ ((cs.foldl (write_card deckDid) (nf, evs)).2).filter (isWriteOf nid)
          = evs.filter (isWriteOf nid)
      ∧ ((cs.foldl (write_card deckDid) (nf, evs)).2).filter (isLinkOf nid)
          = evs.filter (isLinkOf nid) ++ [WEvent.link nid deckDid c]
    else
      (∃ m', alookup (cs.foldl (write_card deckDid) (nf, evs)).1 nid = some m'
          ∧ canonShape ks c m')
      ∧ ((cs.foldl (write_card deckDid) (nf, evs)).2).filter (isWriteOf nid)
          = evs.filter (isWriteOf nid)
      ∧ ((cs.foldl (write_card deckDid) (nf, evs)).2).filter (isLinkOf nid)
          = evs.filter (isLinkOf nid) := by
  intro cs
  induction cs with
  | nil =>
    intro nf evs m hm hshape
    simp only [List.any_nil, if_false, Bool.false_eq_true]
    exact ⟨⟨m, hm, hshape⟩, rfl, rfl⟩
  | cons cd cs ih =>
    intro nf evs m hm hshape
    by_cases hcd : cd.nid = nid
    · have hmne : m ≠ [] := canonShape_keys_ne_nil ks c m hshape hkne
      have hnone : alookup m deckDid = none :=
        alookup_eq_none m deckDid (by rw [hshape.1]; exact hnot)
      have hstep := write_card_link deckDid nf evs cd m
        (by rw [hcd]; exact hm) hmne (by rw [hnone]; rfl)
      have hfile : ((m.headD (0, [])).2.headD dummyCF).file = c := hshape.2.2
      simp only [List.any_cons, decide_eq_true hcd, Bool.true_or, if_true,
        List.foldl_cons, hstep]
      have hm1 : alookup (aset nf cd.nid (aset m deckDid
          [⟨cd.cid, ((m.headD (0, [])).2.headD dummyCF).file,
            some ((m.headD (0, [])).2.headD dummyCF).file⟩])) nid
          = some (aset m deckDid
          [⟨cd.cid, ((m.headD (0, [])).2.headD dummyCF).file,
            some ((m.headD (0, [])).2.headD dummyCF).file⟩]) := by
        rw [hcd]
        exact alookup_aset_self _ _ _
      have hshape1 := canonShape_extend ks c m deckDid
        ⟨cd.cid, ((m.headD (0, [])).2.headD dummyCF).file,
          some ((m.headD (0, [])).2.headD dummyCF).file⟩ hshape hkne hnot
      have hst := cards_fold_stable nid deckDid (ks ++ [deckDid]) c
        (List.mem_append.mpr (Or.inr (List.mem_singleton.mpr rfl)))
        cs
        (aset nf cd.nid (aset m deckDid
          [⟨cd.cid, ((m.headD (0, [])).2.headD dummyCF).file,
            some ((m.headD (0, [])).2.headD dummyCF).file⟩]))
        (evs ++ [WEvent.link cd.nid deckDid
          ((m.headD (0, [])).2.headD dummyCF).file])
        (aset m deckDid
          [⟨cd.cid, ((m.headD (0, [])).2.headD dummyCF).file,
            some ((m.headD (0, [])).2.headD dummyCF).file⟩]) hm1 hshape1
      obtain ⟨hex, hwf, hlf⟩ := hst
      refine ⟨hex, ?_, ?_⟩
      · rw [hwf, filter_append_single]
        simp [isWriteOf]
      · rw [hlf, filter_append_single,
          if_pos (show isLinkOf nid (WEvent.link cd.nid deckDid
            ((m.headD (0, [])).2.headD dummyCF).file) = true by
              simp [isLinkOf, hcd])]
        rw [hcd, hfile]
    · have hstep := write_card_other nid deckDid nf evs cd hcd
      rcases hw : write_card deckDid (nf, evs) cd with ⟨nf₁, evs₁⟩
      rw [hw] at hstep
      obtain ⟨hl, hwf, hlf⟩ := hstep
      simp only [List.any_cons, decide_eq_false hcd, Bool.false_or,
        List.foldl_cons, hw]
      have := ih nf₁ evs₁ m (by rw [hl]; exact hm) hshape
      rw [hwf, hlf] at this
      exact this

/-- Folding `write_deck` over further decks when the note already has a
canonical entry: each owning deck contributes exactly one link event to
the canonical file, and no payload write ever recurs. -/
theorem decks_fold_cont (nid : Nat) :
    ∀ (ds : List DeckT) (nf : Notefiles) (evs : List WEvent)
      (m : List (Nat × List CardFileL)) (ks : List Nat) (c : Nat × Nat),
      alookup nf nid = some m → canonShape ks c m → ks ≠ [] →
      (∀ k ∈ ks, k ∉ ds.map DeckT.did) →
      (ds.map DeckT.did).Nodup →
    (∃ m', alookup (ds.foldl write_deck (nf, evs)).1 nid = some m'
        ∧ canonShape (ks ++ (ds.filter (ownsNid nid)).map DeckT.did) c m')
    ∧ ((ds.foldl write_deck (nf, evs)).2).filter (isWriteOf nid)
        = evs.filter (isWriteOf nid)
    ∧ ((ds.foldl write_deck (nf, evs)).2).filter (isLinkOf nid)
        = evs.filter (isLinkOf nid)
          ++ (ds.filter (ownsNid nid)).map (fun d => WEvent.link nid d.did c) := by
  intro ds
  induction ds with
  | nil =>
    intro nf evs m ks c hm hshape hkne hdisj hnodup
    exact ⟨⟨m, hm, by simpa using hshape⟩, rfl, by simp⟩
  | cons d ds ih =>
    intro nf evs m ks c hm hshape hkne hdisj hnodup
    have hdid_not : d.did ∉ ks := fun hmem => (hdisj d.did hmem) (by simp)
    have hnodup' : (ds.map DeckT.did).Nodup := (List.nodup_cons.mp hnodup).2
    have hdhead : d.did ∉ ds.map DeckT.did := (List.nodup_cons.mp hnodup).1
    by_cases hown : d.cards.any (fun cd => cd.nid = nid) = true
    · have hstep := cards_fold_cont nid d.did ks c hkne hdid_not d.cards nf evs m
        hm hshape
      rw [if_pos hown] at hstep
      obtain ⟨⟨m₁, hm₁, hshape₁⟩, hwf₁, hlf₁⟩ := hstep
      rcases hr : d.cards.foldl (write_card d.did) (nf, evs) with ⟨nf₁, evs₁⟩
      rw [hr] at hm₁ hwf₁ hlf₁
      have hdisj' : ∀ k ∈ ks ++ [d.did], k ∉ ds.map DeckT.did := by
        intro k hk
        rcases List.mem_append.mp hk with hk | hk
        · intro hmem
          exact hdisj k hk (by simp [hmem])
        · simp only [List.mem_singleton] at hk
          subst hk
          exact hdhead
      have hrec := ih nf₁ evs₁ m₁ (ks ++ [d.did]) c hm₁ hshape₁ (by simp)
        hdisj' hnodup'
      obtain ⟨⟨m₂, hm₂, hshape₂⟩, hwf₂, hlf₂⟩ := hrec
      have hwd : write_deck (nf, evs) d = (nf₁, evs₁) := hr
      have hfilter : (d :: ds).filter (ownsNid nid)
          = d :: ds.filter (ownsNid nid) := by
        rw [List.filter_cons, if_pos (show ownsNid nid d = true from hown)]
      refine ⟨⟨m₂, ?_, ?_⟩, ?_, ?_⟩
      · simp only [List.foldl_cons, hwd]
        exact hm₂
      · rw [hfilter]
        simp only [List.map_cons]
        have : ks ++ d.did :: (ds.filter (ownsNid nid)).map DeckT.did
            = (ks ++ [d.did]) ++ (ds.filter (ownsNid nid)).map DeckT.did := by
          simp
        rw [this]
        exact hshape₂
      · simp only [List.foldl_cons, hwd]
        rw [hwf₂, hwf₁]
      · simp only [List.foldl_cons, hwd]
        rw [hlf₂, hlf₁, hfilter]
        simp
    · have hstep := cards_fold_cont nid d.did ks c hkne hdid_not d.cards nf evs m
        hm hshape
      rw [if_neg hown] at hstep
      obtain ⟨⟨m₁, hm₁, hshape₁⟩, hwf₁, hlf₁⟩ := hstep
      rcases hr : d.cards.foldl (write_card d.did) (nf, evs) with ⟨nf₁, evs₁⟩
      rw [hr] at hm₁ hwf₁ hlf₁
      have hdisj' : ∀ k ∈ ks, k ∉ ds.map DeckT.did := by
        intro k hk hmem
        exact hdisj k hk (by simp [hmem])
      have hrec := ih nf₁ evs₁ m₁ ks c hm₁ hshape₁ hkne hdisj' hnodup'
      obtain ⟨⟨m₂, hm₂, hshape₂⟩, hwf₂, hlf₂⟩ := hrec
      have hwd : write_deck (nf, evs) d = (nf₁, evs₁) := hr
      have hfilter : (d :: ds).filter (ownsNid nid) = ds.filter (ownsNid nid) := by
        rw [List.filter_cons, if_neg (show ¬ ownsNid nid d = true from hown)]
      refine ⟨⟨m₂, ?_, ?_⟩, ?_, ?_⟩
      · simp only [List.foldl_cons, hwd]
        exact hm₂
      · rw [hfilter]
        exact hshape₂
      · simp only [List.foldl_cons, hwd]
        rw [hwf₂, hwf₁]
      · simp only [List.foldl_cons, hwd]
        rw [hlf₂, hlf₁, hfilter]

/-- Folding `write_deck` over a deck list starting with no entry for the
note: the first owning deck (in list order) gets the single payload
write, every later owning deck gets exactly one link to it. -/
theorem decks_fold_fresh (nid : Nat) :
    ∀ (ds : List DeckT) (nf : Notefiles) (evs : List WEvent),
      alookup nf nid = none →
      (ds.map DeckT.did).Nodup →
    (ds.filter (ownsNid nid) = [] →
       alookup (ds.foldl write_deck (nf, evs)).1 nid = none
       ∧ ((ds.foldl write_deck (nf, evs)).2).filter (isWriteOf nid)
           = evs.filter (isWriteOf nid)
       ∧ ((ds.foldl write_deck (nf, evs)).2).filter (isLinkOf nid)
           = evs.filter (isLinkOf nid))
    ∧ (∀ (d₀ : DeckT) (rest : List DeckT),
        ds.filter (ownsNid nid) = d₀ :: rest →
       (∃ m, alookup (ds.foldl write_deck (nf, evs)).1 nid = some m
           ∧ canonShape ((d₀ :: rest).map DeckT.did) (d₀.did, nid) m)
       ∧ ((ds.foldl write_deck (nf, evs)).2).filter (isWriteOf nid)
           = evs.filter (isWriteOf nid) ++ [WEvent.write nid d₀.did]
       ∧ ((ds.foldl write_deck (nf, evs)).2).filter (isLinkOf nid)
           = evs.filter (isLinkOf nid)
             ++ rest.map (fun d => WEvent.link nid d.did (d₀.did, nid))) := by
  intro ds
  induction ds with
  | nil =>
    intro nf evs hm hnodup
    constructor
    · intro _
      exact ⟨hm, rfl, rfl⟩
    · intro d₀ rest hcontra
      simp at hcontra
  | cons d ds ih =>
    intro nf evs hm hnodup
    have hnodup' : (ds.map DeckT.did).Nodup := (List.nodup_cons.mp hnodup).2
    have hdhead : d.did ∉ ds.map DeckT.did := (List.nodup_cons.mp hnodup).1
    by_cases hown : d.cards.any (fun cd => cd.nid = nid) = true
    · have hstep := cards_fold_fresh nid d.did d.cards nf evs hm
      rw [if_pos hown] at hstep
      obtain ⟨⟨m₁, hm₁, hshape₁⟩, hwf₁, hlf₁⟩ := hstep
      rcases hr : d.cards.foldl (write_card d.did) (nf, evs) with ⟨nf₁, evs₁⟩
      rw [hr] at hm₁ hwf₁ hlf₁
      have hdisj' : ∀ k ∈ [d.did], k ∉ ds.map DeckT.did := by
        intro k hk
        simp only [List.mem_singleton] at hk
        subst hk
        exact hdhead
      have hrec := decks_fold_cont nid ds nf₁ evs₁ m₁ [d.did] (d.did, nid)
        hm₁ hshape₁ (by simp) hdisj' hnodup'
      obtain ⟨⟨m₂, hm₂, hshape₂⟩, hwf₂, hlf₂⟩ := hrec
      have hwd : write_deck (nf, evs) d = (nf₁, evs₁) := hr
      have hfilter : (d :: ds).filter (ownsNid nid)
          = d :: ds.filter (ownsNid nid) := by
        rw [List.filter_cons, if_pos (show ownsNid nid d = true from hown)]
      constructor
      · intro hcontra
        rw [hfilter] at hcontra
        simp at hcontra
      · intro d₀ rest hds
        rw [hfilter] at hds
        obtain ⟨rfl, rfl⟩ : d = d₀ ∧ ds.filter (ownsNid nid) = rest := by
          cases hds
          exact ⟨rfl, rfl⟩
        refine ⟨⟨m₂, ?_, ?_⟩, ?_, ?_⟩
        · simp only [List.foldl_cons, hwd]
          exact hm₂
        · simpa using hshape₂
        · simp only [List.foldl_cons, hwd]
          rw [hwf₂, hwf₁]
        · simp only [List.foldl_cons, hwd]
          rw [hlf₂, hlf₁]
    · have hstep := cards_fold_fresh nid d.did d.cards nf evs hm
      rw [if_neg hown] at hstep
      obtain ⟨hm₁, hwf₁, hlf₁⟩ := hstep
      rcases hr : d.cards.foldl (write_card d.did) (nf, evs) with ⟨nf₁, evs₁⟩
      rw [hr] at hm₁ hwf₁ hlf₁
      have hrec := ih nf₁ evs₁ hm₁ hnodup'
      obtain ⟨hempty, hcons⟩ := hrec
      have hwd : write_deck (nf, evs) d = (nf₁, evs₁) := hr
      have hfilter : (d :: ds).filter (ownsNid nid) = ds.filter (ownsNid nid) := by
        rw [List.filter_cons, if_neg (show ¬ ownsNid nid d = true from hown)]
      constructor
      · intro hds
        rw [hfilter] at hds
        obtain ⟨h1, h2, h3⟩ := hempty hds
        refine ⟨?_, ?_, ?_⟩
        · simp only [List.foldl_cons, hwd]
          exact h1
        · simp only [List.foldl_cons, hwd]
          rw [h2, hwf₁]
        · simp only [List.foldl_cons, hwd]
          rw [h3, hlf₁]
      · intro d₀ rest hds
        rw [hfilter] at hds
        obtain ⟨hex, h2, h3⟩ := hcons d₀ rest hds
        refine ⟨?_, ?_, ?_⟩
        · simp only [List.foldl_cons, hwd]
          exact hex
        · simp only [List.foldl_cons, hwd]
          rw [h2, hwf₁]
        · simp only [List.foldl_cons, hwd]
          rw [h3, hlf₁]

/--
Claim C8: In a full tree write, a record's payload is materialized as
exactly one real file, written at the first category of the post-order
traversal (media-reserved names excluded, as the code excludes them)
that owns one of its cards; every other category owning one of its cards
receives exactly one link pointing at that canonical file, and no
category ever receives a second copy of the payload.  With cards spanning
exactly two categories this yields one canonical file plus one link.
-/
theorem clone_one_canonical_file_per_record (children : List DeckT) (nid : Nat)
    (d₀ : DeckT) (rest : List DeckT)
    (hnodup : ((((postorderRoot children).filter
        (fun d => ¬ containsSub d.fullname MEDIA)).map DeckT.did)).Nodup)
    (hown : (((postorderRoot children).filter
        (fun d => ¬ containsSub d.fullname MEDIA)).filter (ownsNid nid))
        = d₀ :: rest) :
    ((writeDecksCards children).2).filter (isWriteOf nid)
        = [WEvent.write nid d₀.did]
    ∧ ((writeDecksCards children).2).filter (isLinkOf nid)
        = rest.map (fun d => WEvent.link nid d.did (d₀.did, nid)) := by
  have h := (decks_fold_fresh nid ((postorderRoot children).filter
      (fun d => ¬ containsSub d.fullname MEDIA)) [] [] rfl hnodup).2 d₀ rest hown
  obtain ⟨_, hw, hl⟩ := h
  constructor
  · simp only [writeDecksCards]
    simpa using hw
  · simp only [writeDecksCards]
    simpa using hl

/-- Witness for C8: a note (nid 7) with one card in each of two sibling
decks receives one payload write in the first post-order deck and one
link in the second pointing at it. -/
theorem clone_one_canonical_file_per_record_witness :
    ((writeDecksCards [DeckT.node 1 "A" [⟨100, 7⟩] [],
        DeckT.node 2 "B" [⟨101, 7⟩] []]).2).filter (isWriteOf 7)
        = [WEvent.write 7 1]
    ∧ ((writeDecksCards [DeckT.node 1 "A" [⟨100, 7⟩] [],
        DeckT.node 2 "B" [⟨101, 7⟩] []]).2).filter (isLinkOf 7)
        = [WEvent.link 7 2 (1, 7)] :=
  clone_one_canonical_file_per_record
    [DeckT.node 1 "A" [⟨100, 7⟩] [], DeckT.node 2 "B" [⟨101, 7⟩] []] 7
    (DeckT.node 1 "A" [⟨100, 7⟩] []) [DeckT.node 2 "B" [⟨101, 7⟩] []]
    (by decide) rfl

/-! ### Note update under field validation (C9) -/

/--
Claim C9 counterexample: As stated, the claim is false at this concrete
input: when the incoming note's notetype differs from the stored one,
the notetype change (which the source comments as "also clears all
fields", line 494) runs *before* field validation, so on a validation
warning the note's field contents are *not* preserved — they have been
cleared to the new notetype's empty fields.
-/
theorem update_note_validation_clears_fields :
    update_note id (fun _ => 1) [11] (fun _ => 0)
        ⟨9, [], 0, 5, [("Front", "f"), ("Back", "b")]⟩
        ⟨"", "", "D", "B", ["t"], [("X", "x"), ("Y", "y")]⟩
        ⟨5, "A", ["Front", "Back"]⟩ ⟨6, "B", ["X"]⟩
      = Except.ok (⟨9, ["t"], 1, 6, [("X", "")]⟩,
          [UWarning.wrongFieldCount ["X"]], false)
    ∧ ([("X", "")] : List (String × String)) ≠ [("Front", "f"), ("Back", "b")] := by
  constructor
  · rfl
  · decide

/--
Claim C9 (amended): When updating an existing note, if the parsed note's
field set fails validation against its notetype, the warnings are
returned before any field text from the parsed note is written; the
note's tags, deck (when it has cards) and notetype have already been
updated at that point; the note's field contents are preserved exactly
when the notetype is unchanged — if the notetype changed, the
notetype-change step itself has already cleared all fields.
-/
theorem update_note_validation_frame (pth : String → String)
    (deckIdOf : String → Nat) (cids : List Nat) (health : NoteS → Nat)
    (note : NoteS) (dn : DeckNoteE) (oldNt newNt : NotetypeS)
    (hname : dn.model = newNt.name)
    (hval : (validate_decknote_fields newNt dn).isEmpty = false) :
    update_note pth deckIdOf cids health note dn oldNt newNt
      = Except.ok
          ({ id := note.id,
             tags := dn.tags,
             did := if cids.isEmpty then note.did else deckIdOf dn.deck,
             mid := if oldNt.id = newNt.id then note.mid else newNt.id,
             fields := if oldNt.id = newNt.id then note.fields
               else newNt.flds.map (fun f => (f, "")) },
           validate_decknote_fields newNt dn, false) := by
  unfold update_note
  by_cases hc : cids.isEmpty <;> by_cases hm : oldNt.id = newNt.id <;>
    simp [hname, hval, hc, hm]

/-- Witness for the amended C9: same notetype (id 6) and a note without
cards — on the field-count validation warning the fields and deck are
untouched, tags updated. -/
theorem update_note_validation_frame_witness :
    update_note id (fun _ => 1) [] (fun _ => 0)
        ⟨9, [], 0, 6, [("Front", "f")]⟩
        ⟨"", "", "D", "B", ["t"], [("X", "x"), ("Y", "y")]⟩
        ⟨6, "B", ["X"]⟩ ⟨6, "B", ["X"]⟩
      = Except.ok (⟨9, ["t"], 0, 6, [("Front", "f")]⟩,
          [UWarning.wrongFieldCount ["X"]], false) := by
  have h := update_note_validation_frame id (fun _ => 1) [] (fun _ => 0)
    ⟨9, [], 0, 6, [("Front", "f")]⟩
    ⟨"", "", "D", "B", ["t"], [("X", "x"), ("Y", "y")]⟩
    ⟨6, "B", ["X"]⟩ ⟨6, "B", ["X"]⟩ rfl (by decide)
  simpa using h

end Ki
